import Mathlib

/-!
Verification model of the multipart/form-data streaming parser
(`multipart_parser.h` and its regression-test suite).

The repository ships the public header `src/multipart_parser.h`, the test
suites under `src/tests/`, benchmarks and bindings, but the translation unit
`multipart_parser.c` implementing the engine is not present under `src/`.
The engine (state machine, boundary matcher, pause bookkeeping, output
coalescing buffer, reset) is therefore modelled from the specification,
constrained by the enum/prototypes of `src/multipart_parser.h` and by the
behaviour the test suites exercise.  Bytes are modelled as `Nat`, byte
buffers as `List Nat`, C pointers that may be NULL as `Option`.
-/

deriving instance DecidableEq for Except

/-- Error codes, mirroring `multipart_parser_error` in `src/multipart_parser.h`
(MPPE_OK, MPPE_PAUSED, MPPE_INVALID_BOUNDARY, MPPE_INVALID_HEADER_FIELD,
MPPE_INVALID_HEADER_FORMAT, MPPE_INVALID_STATE, MPPE_UNKNOWN). -/
inductive MPPE where
  | OK
  | PAUSED
  | INVALID_BOUNDARY
  | INVALID_HEADER_FIELD
  | INVALID_HEADER_FORMAT
  | INVALID_STATE
  | UNKNOWN
deriving DecidableEq

/-- The three data-bearing callback kinds of `multipart_parser_settings`:
`on_header_field`, `on_header_value`, `on_part_data`. -/
inductive DKind where
  | field
  | value
  | part
deriving DecidableEq

/-- One callback invocation.  `data k bytes` is an invocation of the
data-bearing callback of kind `k` with payload `bytes`; the other
constructors are the four lifecycle callbacks `on_part_data_begin`,
`on_headers_complete`, `on_part_data_end`, `on_body_end`. -/
inductive Event where
  | data (k : DKind) (bytes : List Nat)
  | partBegin
  | headersComplete
  | partDataEnd
  | bodyEnd
deriving DecidableEq

/-- Modelled from the spec: the conceptual states of the parser engine
(spec §4.1); `multipart_parser.c` is absent from `src/`, so the state set is
taken from the spec's state list.  `preamble k` scans for the opening
delimiter `"--" ++ boundary` (bytes before it are RFC-permitted preamble,
discarded silently); `partData k` streams part data while holding a
partial match of `k` bytes of the data delimiter `"\r\n--" ++ boundary`
(the look-behind index that persists across `execute` calls). -/
inductive MState where
  | preamble (k : Nat)
  | initialDone
  | initialCR
  | headerFieldStart
  | headerField
  | headerValueStart
  | headerValue
  | headerValueAlmostDone
  | headersAlmostDone
  | partData (k : Nat)
  | boundaryMatched
  | boundarySepCR
  | boundaryFinalDash
  | ended
deriving DecidableEq

/-- The opening delimiter: `"--"` followed by the boundary (the boundary is
stored without the `"--"` prefix, per the header's documentation). -/
def openDelim (B : List Nat) : List Nat := 45 :: 45 :: B

/-- The in-stream data delimiter: `CRLF "--"` followed by the boundary. -/
def dataDelim (B : List Nat) : List Nat := 13 :: 10 :: 45 :: 45 :: B

/-- Header-field token characters: letters, digits and the RFC 7230 token
punctuation (spec §4.1: "header field names are restricted to a conservative
token character set"). -/
def isTokenChar (b : Nat) : Bool :=
  (65 ≤ b && b ≤ 90) || (97 ≤ b && b ≤ 122) || (48 ≤ b && b ≤ 57) ||
  b == 33 || b == 35 || b == 36 || b == 37 || b == 38 || b == 39 ||
  b == 42 || b == 43 || b == 45 || b == 46 || b == 94 || b == 95 ||
  b == 96 || b == 124 || b == 126

/-- Modelled from the spec: one byte-at-a-time transition of the engine
(`multipart_parser.c` is absent from `src/`).  Returns either a fatal error
code or the successor state together with at most one callback event
produced by this byte.  Faithful to spec §4.1: preamble bytes are discarded;
an isolated CR inside part data or a header value is withheld one byte
(`pending_cr` look-behind) and never mis-delivered; on a partial-boundary
mismatch the withheld prefix is flushed as ordinary part data and matching
restarts (at index 1 when the mismatching byte is itself CR, else 0); on a
full boundary match the withheld bytes are not emitted; a boundary followed
by CRLF separates parts, followed by `"--"` ends the body, anything else is
`INVALID_BOUNDARY`; a non-token byte in a header field name is
`INVALID_HEADER_FIELD`; a violation of colon/CRLF discipline is
`INVALID_HEADER_FORMAT`. -/
def step (B : List Nat) : MState → Nat → Except MPPE (MState × Option Event)
  | .preamble k, b =>
    let I := openDelim B
    if k < I.length ∧ b = I.getD k 0 then
      if k + 1 = I.length then .ok (.initialDone, none)
      else .ok (.preamble (k + 1), none)
    else
      .ok (.preamble (if b = 45 then 1 else 0), none)
  | .initialDone, b =>
    if b = 13 then .ok (.initialCR, none)
    else if b = 45 then .ok (.boundaryFinalDash, none)
    else .error .INVALID_BOUNDARY
  | .initialCR, b =>
    if b = 10 then .ok (.headerFieldStart, some .partBegin)
    else .error .INVALID_BOUNDARY
  | .headerFieldStart, b =>
    if b = 13 then .ok (.headersAlmostDone, none)
    else if isTokenChar b then .ok (.headerField, some (.data .field [b]))
    else .error .INVALID_HEADER_FIELD
  | .headerField, b =>
    if b = 58 then .ok (.headerValueStart, none)
    else if b = 13 then .error .INVALID_HEADER_FORMAT
    else if isTokenChar b then .ok (.headerField, some (.data .field [b]))
    else .error .INVALID_HEADER_FIELD
  | .headerValueStart, b =>
    if b = 32 then .ok (.headerValueStart, none)
    else if b = 13 then .ok (.headerValueAlmostDone, none)
    else if b = 10 then .error .INVALID_HEADER_FORMAT
    else .ok (.headerValue, some (.data .value [b]))
  | .headerValue, b =>
    if b = 13 then .ok (.headerValueAlmostDone, none)
    else if b = 10 then .error .INVALID_HEADER_FORMAT
    else .ok (.headerValue, some (.data .value [b]))
  | .headerValueAlmostDone, b =>
    if b = 10 then .ok (.headerFieldStart, none)
    else .error .INVALID_HEADER_FORMAT
  | .headersAlmostDone, b =>
    if b = 10 then .ok (.partData 0, some .headersComplete)
    else .error .INVALID_HEADER_FORMAT
  | .partData k, b =>
    let D := dataDelim B
    if k < D.length ∧ b = D.getD k 0 then
      if k + 1 = D.length then .ok (.boundaryMatched, some .partDataEnd)
      else .ok (.partData (k + 1), none)
    else if k = 0 then .ok (.partData 0, some (.data .part [b]))
    else if b = 13 then .ok (.partData 1, some (.data .part (D.take k)))
    else .ok (.partData 0, some (.data .part (D.take k ++ [b])))
  | .boundaryMatched, b =>
    if b = 13 then .ok (.boundarySepCR, none)
    else if b = 45 then .ok (.boundaryFinalDash, none)
    else .error .INVALID_BOUNDARY
  | .boundarySepCR, b =>
    if b = 10 then .ok (.headerFieldStart, some .partBegin)
    else .error .INVALID_BOUNDARY
  | .boundaryFinalDash, b =>
    if b = 45 then .ok (.ended, some .bodyEnd)
    else .error .INVALID_BOUNDARY
  | .ended, _ => .ok (.ended, none)

/-- Result of running the byte loop of `execute` over one buffer. -/
structure RunRes where
  st : MState
  err : MPPE
  consumed : Nat
  events : List Event
deriving DecidableEq

/-- Modelled from the spec: the byte loop of `multipart_parser_execute`
(`multipart_parser.c` is absent from `src/`).  `pf` models the return values
of the registered callbacks during this call: `pf ev = true` means the
callback invoked for `ev` returns non-zero, requesting a pause (spec §4.1:
"every callback returns a signal — 0 to continue, non-zero to pause; a
pause immediately halts consumption").  On a pause or a fatal error the
current byte is not consumed, so the returned count is the number of bytes
consumed so far. -/
def runLoop (B : List Nat) (pf : Event → Bool) : MState → List Nat → RunRes
  | s, [] => ⟨s, .OK, 0, []⟩
  | s, b :: rest =>
    match step B s b with
    | .error e => ⟨s, e, 0, []⟩
    | .ok (s', none) =>
      let r := runLoop B pf s' rest
      ⟨r.st, r.err, r.consumed + 1, r.events⟩
    | .ok (s', some ev) =>
      if pf ev then ⟨s, .PAUSED, 0, []⟩
      else
        let r := runLoop B pf s' rest
        ⟨r.st, r.err, r.consumed + 1, ev :: r.events⟩

/-- The never-pausing callback return model (every callback returns 0). -/
def noPf : Event → Bool := fun _ => false

/-- Merge a callback event onto the front of an event list, coalescing it
with an adjacent data event of the same kind. -/
def push (e : Event) (l : List Event) : List Event :=
  match e, l with
  | .data k xs, .data k' ys :: t => if k = k' then .data k (xs ++ ys) :: t else e :: l
  | _, _ => e :: l

/-- Coalesce every run of adjacent data events of the same kind into a
single event.  `coalesce` of a micro (byte-at-a-time) event trace is the
span-granularity callback sequence; two callback sequences describe the
same observable behaviour exactly when their images under `coalesce`
agree. -/
def coalesce : List Event → List Event
  | [] => []
  | e :: rest => push e (coalesce rest)

/-- Modelled from the spec: the optional output-coalescing buffer (spec
§4.3; `multipart_parser.c` is absent from `src/`).  Consecutive bytes for
the same data-bearing callback accumulate in a buffer of capacity `size`;
the buffer flushes when it reaches capacity, when the data kind changes,
or before a lifecycle callback fires, and at the end of the `execute`
call. -/
def bufRun (size : Nat) : List Event → Option (DKind × List Nat) → List Event
  | [], none => []
  | [], some (k, xs) => [.data k xs]
  | .data k xs :: rest, none =>
    if size ≤ xs.length then .data k xs :: bufRun size rest none
    else bufRun size rest (some (k, xs))
  | .data k xs :: rest, some (k', ys) =>
    if k' = k then
      if size ≤ (ys ++ xs).length then .data k (ys ++ xs) :: bufRun size rest none
      else bufRun size rest (some (k, ys ++ xs))
    else
      .data k' ys ::
        (if size ≤ xs.length then .data k xs :: bufRun size rest none
         else bufRun size rest (some (k, xs)))
  | e :: rest, none => e :: bufRun size rest none
  | e :: rest, some (k', ys) => .data k' ys :: e :: bufRun size rest none

/-- Concatenation of the payloads of all data events of kind `k` in a
callback trace. -/
def concatK (k : DKind) : List Event → List Nat
  | [] => []
  | .data k' xs :: rest => if k' = k then xs ++ concatK k rest else concatK k rest
  | _ :: rest => concatK k rest

/-- Callback settings record (`multipart_parser_settings`).  The seven
function pointers are dispatch targets whose return values are modelled by
the `pf` argument of `multipart_parser_execute`; the remaining
configuration datum is `buffer_size`, the capacity of the optional output
coalescing buffer (0 disables it), as exercised by
`src/tests/test_advanced.c` (`callbacks.buffer_size = 16`). -/
structure multipart_parser_settings where
  buffer_size : Nat
deriving DecidableEq

/-- Modelled from the spec: the parser state object (`struct
multipart_parser_t`; `multipart_parser.c` is absent from `src/`).  Holds the
boundary (without the `"--"` prefix), the capacity of the boundary storage
fixed at construction (reset validates new boundaries against it), the
current machine state, the sticky error code, the opaque caller-owned
user-data reference, and the configured output-buffer size. -/
structure multipart_parser_t where
  boundary : List Nat
  cap : Nat
  st : MState
  error : MPPE
  user_data : Option Nat
  buffer_size : Nat
deriving DecidableEq

/-- Modelled from the spec: `multipart_parser_init` (`multipart_parser.c`
is absent from `src/`).  Creates a parser for the given boundary (spec §6:
fails if the boundary exceeds the maximum supported length; the suite
exercises boundaries up to 255 bytes).  The callback settings are stored;
user data starts NULL. -/
def multipart_parser_init (boundary : List Nat)
    (settings : multipart_parser_settings) : Option multipart_parser_t :=
  if boundary.length > 255 then none
  else some
    { boundary := boundary
      cap := boundary.length
      st := .preamble 0
      error := .OK
      user_data := none
      buffer_size := settings.buffer_size }

/-- Result of `multipart_parser_execute`: the updated parser (the C
function mutates `*p` in place), the returned byte count, and the sequence
of callback invocations performed during the call. -/
structure ExecResult where
  p : Option multipart_parser_t
  consumed : Nat
  events : List Event
deriving DecidableEq

/-- Group a byte-level event trace into the callback invocations actually
performed: with the output buffer disabled (`n = 0`) each contiguous run of
same-kind data bytes is one span callback; with a buffer of capacity `n`
the spans are regrouped by the buffer (spec §4.3). -/
def procEvents (n : Nat) (m : List Event) : List Event :=
  if n = 0 then coalesce m else bufRun n m none

/-- Modelled from the spec: `multipart_parser_execute` (`multipart_parser.c`
is absent from `src/`).  A NULL parser returns 0 with no side effects; a
NULL buffer with non-zero length is an `INVALID_STATE` error (returns 0,
sets the error); a NULL buffer with zero length is a valid no-op (spec §6,
`src/tests/test_safety.c`).  A sticky fatal error blocks further
processing; `PAUSED` is not a true error and is cleared so that parsing
resumes (spec §7).  The byte loop then consumes input, and the callback
invocations of the call are the byte-level event trace grouped into spans:
coalesced per contiguous run when the output buffer is disabled, or
regrouped by the output buffer of the configured size (spec §4.3). -/
def multipart_parser_execute (po : Option multipart_parser_t)
    (buf : Option (List Nat)) (len : Nat) (pf : Event → Bool) : ExecResult :=
  match po with
  | none => ⟨none, 0, []⟩
  | some p =>
    match buf with
    | none =>
      if len = 0 then ⟨some p, 0, []⟩
      else ⟨some { p with error := .INVALID_STATE }, 0, []⟩
    | some bs =>
      if p.error ≠ .OK ∧ p.error ≠ .PAUSED then ⟨some p, 0, []⟩
      else
        let r := runLoop p.boundary pf p.st (bs.take len)
        ⟨some { p with st := r.st, error := r.err }, r.consumed,
          procEvents p.buffer_size r.events⟩

/-- Modelled from the spec: `multipart_parser_reset` (declared by use in
`src/tests/test_reset.c`; `multipart_parser.c` is absent from `src/`).
With no new boundary the current boundary is kept; otherwise the new
boundary must fit the storage allocated at construction
(`test_reset_boundary_too_long` rejects growing a 5-byte boundary to 22
bytes).  On success it re-initializes the matcher state and clears the
error while preserving the callback settings and the user-data reference;
on failure (NULL parser or oversized boundary) it returns -1 and changes
nothing. -/
def multipart_parser_reset (po : Option multipart_parser_t)
    (nb : Option (List Nat)) : Int × Option multipart_parser_t :=
  match po with
  | none => (-1, none)
  | some p =>
    match nb with
    | none => (0, some { p with st := .preamble 0, error := .OK })
    | some b =>
      if b.length > p.cap then (-1, some p)
      else (0, some { p with boundary := b, st := .preamble 0, error := .OK })

/-- Modelled from the spec: `multipart_parser_set_data`
(`multipart_parser.c` is absent from `src/`).  Stores the opaque user-data
reference; a NULL parser is a safe no-op. -/
def multipart_parser_set_data (po : Option multipart_parser_t)
    (d : Option Nat) : Option multipart_parser_t :=
  match po with
  | none => none
  | some p => some { p with user_data := d }

/-- Modelled from the spec: `multipart_parser_get_data`
(`multipart_parser.c` is absent from `src/`).  Returns the stored user-data
reference; NULL for a NULL parser. -/
def multipart_parser_get_data (po : Option multipart_parser_t) : Option Nat :=
  match po with
  | none => none
  | some p => p.user_data

/-- Modelled from the spec: `multipart_parser_get_error`
(`multipart_parser.c` is absent from `src/`).  Returns the last error code;
`MPPE_UNKNOWN` for a NULL parser (spec §4.5, `src/tests/test_safety.c`). -/
def multipart_parser_get_error (po : Option multipart_parser_t) : MPPE :=
  match po with
  | none => .UNKNOWN
  | some p => p.error

/-- Feeding a list of chunks through successive `multipart_parser_execute`
calls on one parser, with no callback requesting a pause; returns the final
parser and the concatenated callback trace of all calls. -/
def execChunks (po : Option multipart_parser_t) : List (List Nat) →
    Option multipart_parser_t × List Event
  | [] => (po, [])
  | c :: cs =>
    let r := multipart_parser_execute po (some c) c.length noPf
    let rest := execChunks r.p cs
    (rest.1, r.events ++ rest.2)

/-! ### Coalescing algebra -/

lemma push_push_same (k : DKind) (xs ys : List Nat) (m : List Event) :
    push (.data k (xs ++ ys)) m = push (.data k xs) (push (.data k ys) m) := by
  cases m with
  | nil => simp [push]
  | cons e t =>
    cases e with
    | data k' zs =>
      by_cases h : k = k'
      · subst h; simp [push]
      · simp [push, h]
    | partBegin => simp [push]
    | headersComplete => simp [push]
    | partDataEnd => simp [push]
    | bodyEnd => simp [push]

lemma coalesce_push_append (e : Event) (l b : List Event) :
    coalesce (push e l ++ b) = push e (coalesce (l ++ b)) := by
  cases e with
  | data k xs =>
    cases l with
    | nil => simp [push, coalesce]
    | cons e' t =>
      cases e' with
      | data k' ys =>
        by_cases h : k = k'
        · subst h
          simp only [push, if_pos rfl, List.cons_append, coalesce]
          exact push_push_same k xs ys (coalesce (t ++ b))
        · simp [push, h, coalesce]
      | partBegin => simp [push, coalesce]
      | headersComplete => simp [push, coalesce]
      | partDataEnd => simp [push, coalesce]
      | bodyEnd => simp [push, coalesce]
  | partBegin => cases l with
    | nil => simp [push, coalesce]
    | cons e' t => cases e' <;> simp [push, coalesce]
  | headersComplete => cases l with
    | nil => simp [push, coalesce]
    | cons e' t => cases e' <;> simp [push, coalesce]
  | partDataEnd => cases l with
    | nil => simp [push, coalesce]
    | cons e' t => cases e' <;> simp [push, coalesce]
  | bodyEnd => cases l with
    | nil => simp [push, coalesce]
    | cons e' t => cases e' <;> simp [push, coalesce]

lemma coalesce_coalesce_append (a b : List Event) :
    coalesce (coalesce a ++ b) = coalesce (a ++ b) := by
  induction a with
  | nil => simp [coalesce]
  | cons e t ih =>
    simp only [coalesce, List.cons_append, List.append_eq]
    rw [coalesce_push_append, ih]

lemma coalesce_coalesce (a : List Event) : coalesce (coalesce a) = coalesce a := by
  have h := coalesce_coalesce_append a []
  simpa using h

lemma coalesce_append_coalesce (a b : List Event) :
    coalesce (a ++ coalesce b) = coalesce (a ++ b) := by
  induction a with
  | nil => simpa using coalesce_coalesce b
  | cons e t ih => simp only [coalesce, List.cons_append, List.append_eq]; rw [ih]

lemma coalesce_append_congr {a a' b b' : List Event}
    (ha : coalesce a = coalesce a') (hb : coalesce b = coalesce b') :
    coalesce (a ++ b) = coalesce (a' ++ b') := by
  calc coalesce (a ++ b) = coalesce (coalesce a ++ b) := (coalesce_coalesce_append a b).symm
    _ = coalesce (coalesce a' ++ b) := by rw [ha]
    _ = coalesce (a' ++ b) := coalesce_coalesce_append a' b
    _ = coalesce (a' ++ coalesce b) := (coalesce_append_coalesce a' b).symm
    _ = coalesce (a' ++ coalesce b') := by rw [hb]
    _ = coalesce (a' ++ b') := coalesce_append_coalesce a' b'

/-! ### Payload concatenation -/

lemma concatK_append (k : DKind) (a b : List Event) :
    concatK k (a ++ b) = concatK k a ++ concatK k b := by
  induction a with
  | nil => simp [concatK]
  | cons e t ih =>
    cases e with
    | data k' xs =>
      by_cases h : k' = k
      · simp [concatK, h, ih]
      · simp [concatK, h, ih]
    | partBegin => simp [concatK, ih]
    | headersComplete => simp [concatK, ih]
    | partDataEnd => simp [concatK, ih]
    | bodyEnd => simp [concatK, ih]

lemma concatK_push (k : DKind) (e : Event) (l : List Event) :
    concatK k (push e l) = concatK k (e :: l) := by
  cases e with
  | data k' xs =>
    cases l with
    | nil => simp [push]
    | cons e' t =>
      cases e' with
      | data k'' ys =>
        by_cases h : k' = k''
        · subst h
          by_cases hk : k' = k
          · simp [push, concatK, hk]
          · simp [push, concatK, hk]
        · simp [push, h]
      | partBegin => simp [push]
      | headersComplete => simp [push]
      | partDataEnd => simp [push]
      | bodyEnd => simp [push]
  | partBegin => cases l with
    | nil => simp [push]
    | cons e' t => cases e' <;> simp [push]
  | headersComplete => cases l with
    | nil => simp [push]
    | cons e' t => cases e' <;> simp [push]
  | partDataEnd => cases l with
    | nil => simp [push]
    | cons e' t => cases e' <;> simp [push]
  | bodyEnd => cases l with
    | nil => simp [push]
    | cons e' t => cases e' <;> simp [push]

lemma concatK_coalesce (k : DKind) (l : List Event) :
    concatK k (coalesce l) = concatK k l := by
  induction l with
  | nil => rfl
  | cons e t ih =>
    cases e with
    | data k' xs =>
      rw [coalesce, concatK_push]
      by_cases h : k' = k
      · simp [concatK, h, ih]
      · simp [concatK, h, ih]
    | partBegin => rw [coalesce, concatK_push]; simp [concatK, ih]
    | headersComplete => rw [coalesce, concatK_push]; simp [concatK, ih]
    | partDataEnd => rw [coalesce, concatK_push]; simp [concatK, ih]
    | bodyEnd => rw [coalesce, concatK_push]; simp [concatK, ih]

/-! ### Output buffer transparency at the trace level -/

/-- The pending content of the output buffer, as an event list. -/
def accEvents : Option (DKind × List Nat) → List Event
  | none => []
  | some (k, xs) => [.data k xs]

lemma coalesce_bufRun (size : Nat) :
    ∀ (l : List Event) (acc : Option (DKind × List Nat)),
    coalesce (bufRun size l acc) = coalesce (accEvents acc ++ l) := by
  intro l
  induction l with
  | nil =>
    intro acc
    match acc with
    | none => rfl
    | some (k, xs) => rfl
  | cons e rest ih =>
    intro acc
    cases e with
    | data k xs =>
      match acc with
      | none =>
        by_cases h : size ≤ xs.length
        · simp only [bufRun, if_pos h, coalesce, accEvents, List.nil_append]
          rw [ih none]; rfl
        · simp only [bufRun, if_neg h]
          rw [ih (some (k, xs))]; rfl
      | some (k', ys) =>
        by_cases hk : k' = k
        · subst hk
          have key : bufRun size (Event.data k' xs :: rest) (some (k', ys)) =
              if size ≤ (ys ++ xs).length then
                Event.data k' (ys ++ xs) :: bufRun size rest none
              else bufRun size rest (some (k', ys ++ xs)) := by
            simp [bufRun]
          have hrhs : coalesce (accEvents (some (k', ys)) ++ Event.data k' xs :: rest) =
              push (Event.data k' (ys ++ xs)) (coalesce rest) := by
            simp only [accEvents, List.cons_append, List.nil_append, coalesce]
            exact (push_push_same k' ys xs (coalesce rest)).symm
          rw [key, hrhs]
          by_cases h : size ≤ (ys ++ xs).length
          · rw [if_pos h]
            simp only [coalesce]
            rw [ih none]
            simp [accEvents]
          · rw [if_neg h, ih (some (k', ys ++ xs))]
            simp [accEvents, coalesce]
        · by_cases h : size ≤ xs.length
          · simp only [bufRun, if_neg hk, if_pos h, coalesce]
            rw [ih none]
            simp [accEvents, coalesce]
          · simp only [bufRun, if_neg hk, if_neg h, coalesce]
            rw [ih (some (k, xs))]
            simp [accEvents, coalesce]
    | partBegin =>
      match acc with
      | none => simp only [bufRun, coalesce, accEvents, List.nil_append]; rw [ih none]; rfl
      | some (k', ys) =>
        simp only [bufRun, coalesce, accEvents, List.cons_append, List.nil_append]
        rw [ih none]; rfl
    | headersComplete =>
      match acc with
      | none => simp only [bufRun, coalesce, accEvents, List.nil_append]; rw [ih none]; rfl
      | some (k', ys) =>
        simp only [bufRun, coalesce, accEvents, List.cons_append, List.nil_append]
        rw [ih none]; rfl
    | partDataEnd =>
      match acc with
      | none => simp only [bufRun, coalesce, accEvents, List.nil_append]; rw [ih none]; rfl
      | some (k', ys) =>
        simp only [bufRun, coalesce, accEvents, List.cons_append, List.nil_append]
        rw [ih none]; rfl
    | bodyEnd =>
      match acc with
      | none => simp only [bufRun, coalesce, accEvents, List.nil_append]; rw [ih none]; rfl
      | some (k', ys) =>
        simp only [bufRun, coalesce, accEvents, List.cons_append, List.nil_append]
        rw [ih none]; rfl

lemma concatK_bufRun (size : Nat) (k : DKind) (l : List Event) :
    concatK k (bufRun size l none) = concatK k l := by
  have h1 : concatK k (bufRun size l none) = concatK k (coalesce (bufRun size l none)) :=
    (concatK_coalesce k _).symm
  rw [h1, coalesce_bufRun]
  simpa [accEvents] using concatK_coalesce k l

/-! ### Byte-loop lemmas -/

lemma step_error_classify (B : List Nat) (s : MState) (b : Nat) (e : MPPE)
    (h : step B s b = .error e) : e ≠ .OK ∧ e ≠ .PAUSED := by
  cases s <;> simp only [step] at h <;>
    ((try split_ifs at h) <;>
      first
        | (injection h with h2; exact h2 ▸ ⟨by simp, by simp⟩)
        | injection h)

lemma runLoop_nil (B : List Nat) (pf : Event → Bool) (s : MState) :
    runLoop B pf s [] = ⟨s, .OK, 0, []⟩ := rfl

lemma runLoop_cons_error (B : List Nat) (pf : Event → Bool) (s : MState)
    (b : Nat) (rest : List Nat) (e : MPPE) (hstep : step B s b = .error e) :
    runLoop B pf s (b :: rest) = ⟨s, e, 0, []⟩ := by
  simp [runLoop, hstep]

lemma runLoop_cons_none (B : List Nat) (pf : Event → Bool) (s : MState)
    (b : Nat) (rest : List Nat) (s' : MState) (hstep : step B s b = .ok (s', none)) :
    runLoop B pf s (b :: rest) =
      ⟨(runLoop B pf s' rest).st, (runLoop B pf s' rest).err,
        (runLoop B pf s' rest).consumed + 1, (runLoop B pf s' rest).events⟩ := by
  simp [runLoop, hstep]

lemma runLoop_cons_pause (B : List Nat) (pf : Event → Bool) (s : MState)
    (b : Nat) (rest : List Nat) (s' : MState) (ev : Event)
    (hstep : step B s b = .ok (s', some ev)) (hp : pf ev = true) :
    runLoop B pf s (b :: rest) = ⟨s, .PAUSED, 0, []⟩ := by
  simp [runLoop, hstep, hp]

lemma runLoop_cons_some (B : List Nat) (pf : Event → Bool) (s : MState)
    (b : Nat) (rest : List Nat) (s' : MState) (ev : Event)
    (hstep : step B s b = .ok (s', some ev)) (hp : pf ev = false) :
    runLoop B pf s (b :: rest) =
      ⟨(runLoop B pf s' rest).st, (runLoop B pf s' rest).err,
        (runLoop B pf s' rest).consumed + 1, ev :: (runLoop B pf s' rest).events⟩ := by
  simp [runLoop, hstep, hp]

lemma runLoop_err_ne_paused (B : List Nat) (l : List Nat) : ∀ s,
    (runLoop B noPf s l).err ≠ .PAUSED := by
  induction l with
  | nil => intro s; simp [runLoop_nil]
  | cons b rest ih =>
    intro s
    cases hstep : step B s b with
    | error e =>
      rw [runLoop_cons_error B noPf s b rest e hstep]
      exact (step_error_classify B s b e hstep).2
    | ok pr =>
      match pr with
      | (s', none) => rw [runLoop_cons_none B noPf s b rest s' hstep]; exact ih s'
      | (s', some ev) =>
        rw [runLoop_cons_some B noPf s b rest s' ev hstep rfl]; exact ih s'

lemma runLoop_append (B : List Nat) (pf : Event → Bool) (a b : List Nat) : ∀ s,
    runLoop B pf s (a ++ b) =
      (let r := runLoop B pf s a
       if r.err = .OK then
         let r2 := runLoop B pf r.st b
         ⟨r2.st, r2.err, r.consumed + r2.consumed, r.events ++ r2.events⟩
       else r) := by
  induction a with
  | nil => intro s; simp [runLoop_nil]
  | cons x t ih =>
    intro s
    rw [List.cons_append]
    cases hstep : step B s x with
    | error e =>
      rw [runLoop_cons_error B pf s x (t ++ b) e hstep,
        runLoop_cons_error B pf s x t e hstep]
      have hne := (step_error_classify B s x e hstep).1
      simp [hne]
    | ok pr =>
      match pr with
      | (s', none) =>
        rw [runLoop_cons_none B pf s x (t ++ b) s' hstep,
          runLoop_cons_none B pf s x t s' hstep, ih s']
        by_cases herr : (runLoop B pf s' t).err = .OK
        · simp only [herr, if_pos rfl]
          simp [Nat.add_right_comm]
        · simp [herr]
      | (s', some ev) =>
        by_cases hp : pf ev
        · rw [runLoop_cons_pause B pf s x (t ++ b) s' ev hstep hp,
            runLoop_cons_pause B pf s x t s' ev hstep hp]
          simp
        · rw [runLoop_cons_some B pf s x (t ++ b) s' ev hstep (by simpa using hp),
            runLoop_cons_some B pf s x t s' ev hstep (by simpa using hp), ih s']
          by_cases herr : (runLoop B pf s' t).err = .OK
          · simp only [herr, if_pos rfl]
            simp [Nat.add_right_comm]
          · simp [herr]

lemma runLoop_err_ok_consumed (B : List Nat) (pf : Event → Bool) (l : List Nat) : ∀ s,
    (runLoop B pf s l).err = .OK → (runLoop B pf s l).consumed = l.length := by
  induction l with
  | nil => intro s _; simp [runLoop_nil]
  | cons b rest ih =>
    intro s h
    cases hstep : step B s b with
    | error e =>
      rw [runLoop_cons_error B pf s b rest e hstep] at h
      exact absurd h (by simpa using (step_error_classify B s b e hstep).1)
    | ok pr =>
      match pr with
      | (s', none) =>
        rw [runLoop_cons_none B pf s b rest s' hstep] at h ⊢
        simp only [List.length_cons]
        simp only at h
        rw [ih s' h]
      | (s', some ev) =>
        by_cases hp : pf ev
        · rw [runLoop_cons_pause B pf s b rest s' ev hstep hp] at h
          simp at h
        · rw [runLoop_cons_some B pf s b rest s' ev hstep (by simpa using hp)] at h ⊢
          simp only [List.length_cons]
          simp only at h
          rw [ih s' h]

lemma runLoop_pause_resume (B : List Nat) (pf : Event → Bool) (l : List Nat) : ∀ s,
    (runLoop B pf s l).err = .PAUSED →
      (runLoop B pf s l).consumed < l.length ∧
      (runLoop B noPf (runLoop B pf s l).st (l.drop (runLoop B pf s l).consumed)).st
        = (runLoop B noPf s l).st ∧
      (runLoop B noPf (runLoop B pf s l).st (l.drop (runLoop B pf s l).consumed)).err
        = (runLoop B noPf s l).err ∧
      (runLoop B pf s l).consumed +
        (runLoop B noPf (runLoop B pf s l).st
          (l.drop (runLoop B pf s l).consumed)).consumed
        = (runLoop B noPf s l).consumed ∧
      (runLoop B pf s l).events ++
        (runLoop B noPf (runLoop B pf s l).st
          (l.drop (runLoop B pf s l).consumed)).events
        = (runLoop B noPf s l).events := by
  induction l with
  | nil => intro s h; rw [runLoop_nil] at h; exact absurd h (by simp)
  | cons b rest ih =>
    intro s h
    cases hstep : step B s b with
    | error e =>
      rw [runLoop_cons_error B pf s b rest e hstep] at h
      exact absurd h (by simpa using (step_error_classify B s b e hstep).2)
    | ok pr =>
      match pr with
      | (s', none) =>
        rw [runLoop_cons_none B pf s b rest s' hstep] at h ⊢
        simp only at h
        obtain ⟨ihlt, ihst, iherr, ihcons, ihev⟩ := ih s' h
        rw [runLoop_cons_none B noPf s b rest s' hstep]
        simp only [List.drop_succ_cons, List.length_cons]
        exact ⟨Nat.succ_lt_succ ihlt, ihst, iherr, by omega, ihev⟩
      | (s', some ev) =>
        by_cases hp : pf ev
        · rw [runLoop_cons_pause B pf s b rest s' ev hstep hp] at h ⊢
          simp
        · rw [runLoop_cons_some B pf s b rest s' ev hstep (by simpa using hp)] at h ⊢
          simp only at h
          obtain ⟨ihlt, ihst, iherr, ihcons, ihev⟩ := ih s' h
          rw [runLoop_cons_some B noPf s b rest s' ev hstep rfl]
          simp only [List.drop_succ_cons, List.length_cons, List.cons_append]
          refine ⟨Nat.succ_lt_succ ihlt, ihst, iherr, by omega, ?_⟩
          rw [ihev]

lemma coalesce_procEvents (n : Nat) (m : List Event) :
    coalesce (procEvents n m) = coalesce m := by
  unfold procEvents
  by_cases h : n = 0
  · simp [h, coalesce_coalesce]
  · simp only [h, if_neg h]
    simpa [accEvents] using coalesce_bufRun n m none

lemma concatK_procEvents (k : DKind) (n : Nat) (m : List Event) :
    concatK k (procEvents n m) = concatK k m := by
  have h1 : concatK k (procEvents n m) = concatK k (coalesce (procEvents n m)) :=
    (concatK_coalesce k _).symm
  rw [h1, coalesce_procEvents]
  exact concatK_coalesce k m

/-! ### No CR is ever delivered in a header-value payload -/

lemma step_value_cr_free (B : List Nat) (s : MState) (b : Nat) (s' : MState)
    (xs : List Nat) (h : step B s b = .ok (s', some (.data .value xs))) :
    ¬ 13 ∈ xs := by
  cases s <;> simp only [step] at h <;>
    ((try split_ifs at h) <;> (try simp_all) <;>
      (obtain ⟨hs, hxs⟩ := h; subst hxs; simp only [List.mem_singleton]; omega))

lemma runLoop_value_concat_cr_free (B : List Nat) (pf : Event → Bool)
    (l : List Nat) : ∀ s, ¬ 13 ∈ concatK .value (runLoop B pf s l).events := by
  induction l with
  | nil => intro s; simp [runLoop_nil, concatK]
  | cons b rest ih =>
    intro s
    cases hstep : step B s b with
    | error e =>
      rw [runLoop_cons_error B pf s b rest e hstep]; simp [concatK]
    | ok pr =>
      match pr with
      | (s', none) =>
        rw [runLoop_cons_none B pf s b rest s' hstep]
        simpa using ih s'
      | (s', some ev) =>
        by_cases hp : pf ev
        · rw [runLoop_cons_pause B pf s b rest s' ev hstep hp]; simp [concatK]
        · rw [runLoop_cons_some B pf s b rest s' ev hstep (by simpa using hp)]
          simp only
          cases ev with
          | data k xs =>
            cases k with
            | value =>
              have hx := step_value_cr_free B s b s' xs hstep
              have hrest := ih s'
              have hcc : concatK .value
                    (Event.data .value xs :: (runLoop B pf s' rest).events) =
                  xs ++ concatK .value (runLoop B pf s' rest).events := by
                simp [concatK]
              rw [hcc]
              intro hc
              rcases List.mem_append.mp hc with hc | hc
              · exact hx hc
              · exact hrest hc
            | field => simpa [concatK] using ih s'
            | part => simpa [concatK] using ih s'
          | partBegin => simpa [concatK] using ih s'
          | headersComplete => simpa [concatK] using ih s'
          | partDataEnd => simpa [concatK] using ih s'
          | bodyEnd => simpa [concatK] using ih s'

lemma mem_concatK (k : DKind) (xs : List Nat) (l : List Event)
    (hmem : Event.data k xs ∈ l) (x : Nat) (hx : x ∈ xs) : x ∈ concatK k l := by
  induction l with
  | nil => cases hmem
  | cons e t ih =>
    rcases List.mem_cons.mp hmem with he | ht
    · rw [← he]
      have hcc : concatK k (Event.data k xs :: t) = xs ++ concatK k t := by
        simp [concatK]
      rw [hcc]
      exact List.mem_append.mpr (Or.inl hx)
    · cases e with
      | data k' ys =>
        by_cases hk : k' = k
        · simp only [concatK, if_pos hk, List.mem_append]
          exact Or.inr (ih ht)
        · simp only [concatK, if_neg hk]
          exact ih ht
      | partBegin => simpa [concatK] using ih ht
      | headersComplete => simpa [concatK] using ih ht
      | partDataEnd => simpa [concatK] using ih ht
      | bodyEnd => simpa [concatK] using ih ht

/-! ### Parser-level `execute` lemmas -/

lemma execute_run (p : multipart_parser_t) (bs : List Nat) (len : Nat)
    (pf : Event → Bool) (h : p.error = .OK ∨ p.error = .PAUSED) :
    multipart_parser_execute (some p) (some bs) len pf =
      ⟨some { p with
          st := (runLoop p.boundary pf p.st (bs.take len)).st
          error := (runLoop p.boundary pf p.st (bs.take len)).err },
        (runLoop p.boundary pf p.st (bs.take len)).consumed,
        procEvents p.buffer_size (runLoop p.boundary pf p.st (bs.take len)).events⟩ := by
  have hne : ¬(p.error ≠ .OK ∧ p.error ≠ .PAUSED) := by
    rcases h with h | h <;> simp [h]
  simp [multipart_parser_execute, hne]

lemma execute_blocked (p : multipart_parser_t) (bs : List Nat) (len : Nat)
    (pf : Event → Bool) (h1 : p.error ≠ .OK) (h2 : p.error ≠ .PAUSED) :
    multipart_parser_execute (some p) (some bs) len pf = ⟨some p, 0, []⟩ := by
  simp [multipart_parser_execute, h1, h2]

lemma execChunks_cons (po : Option multipart_parser_t) (c : List Nat)
    (cs : List (List Nat)) :
    execChunks po (c :: cs) =
      ((execChunks (multipart_parser_execute po (some c) c.length noPf).p cs).1,
        (multipart_parser_execute po (some c) c.length noPf).events ++
          (execChunks (multipart_parser_execute po (some c) c.length noPf).p cs).2) :=
  rfl

lemma execChunks_blocked (cs : List (List Nat)) (p : multipart_parser_t)
    (h1 : p.error ≠ .OK) (h2 : p.error ≠ .PAUSED) :
    execChunks (some p) cs = (some p, []) := by
  induction cs with
  | nil => rfl
  | cons c t ih =>
    simp only [execChunks]
    rw [execute_blocked p c c.length noPf h1 h2]
    simp [ih]

/-- Chunking invariance, generic helper: feeding any non-empty list of
chunks through successive `execute` calls reaches the same parser as one
`execute` over the concatenation, and the two callback traces agree after
merging adjacent same-kind data invocations. -/
lemma execChunks_spec (chunks : List (List Nat)) : ∀ p : multipart_parser_t,
    chunks ≠ [] →
    (execChunks (some p) chunks).1 =
      (multipart_parser_execute (some p) (some chunks.flatten)
        chunks.flatten.length noPf).p ∧
    coalesce (execChunks (some p) chunks).2 =
      coalesce (multipart_parser_execute (some p) (some chunks.flatten)
        chunks.flatten.length noPf).events := by
  induction chunks with
  | nil => intro p h; exact absurd rfl h
  | cons c cs ih =>
    intro p _
    by_cases hblk : p.error ≠ .OK ∧ p.error ≠ .PAUSED
    · -- a sticky fatal error blocks every call and the single call alike
      have hsingle := execute_blocked p (c :: cs).flatten (c :: cs).flatten.length noPf
        hblk.1 hblk.2
      have hfirst := execute_blocked p c c.length noPf hblk.1 hblk.2
      simp only [execChunks, hsingle, hfirst]
      rw [execChunks_blocked cs p hblk.1 hblk.2]
      simp
    · have hok : p.error = .OK ∨ p.error = .PAUSED := by
        by_cases h1 : p.error = .OK
        · exact Or.inl h1
        · right
          by_contra h2
          exact hblk ⟨h1, h2⟩
      set R1 := runLoop p.boundary noPf p.st c with hR1
      have hfirst := execute_run p c c.length noPf hok
      rw [List.take_length] at hfirst
      have hjoin : (c :: cs).flatten = c ++ cs.flatten := by simp
      have hsingle := execute_run p (c :: cs).flatten (c :: cs).flatten.length noPf hok
      rw [List.take_length, hjoin, runLoop_append p.boundary noPf c cs.flatten p.st]
        at hsingle
      simp only at hsingle
      by_cases herr : R1.err = .OK
      · -- the first chunk succeeds; compose with the remaining chunks
        set p1 : multipart_parser_t := { p with st := R1.st, error := R1.err } with hp1
        have hp1ok : p1.error = .OK := by simp [hp1, herr]
        rcases cs with _ | ⟨c2, cs2⟩
        · -- single chunk: the composition is trivial
          simp only [execChunks, hfirst]
          have hsingle1 := execute_run p c c.length noPf hok
          rw [List.take_length] at hsingle1
          simp [execChunks, hsingle1]
        · have ihc := ih p1 (by simp)
          set R2 := runLoop p.boundary noPf R1.st (c2 :: cs2).flatten with hR2
          have hx : (multipart_parser_execute (some p1) (some (c2 :: cs2).flatten)
              (c2 :: cs2).flatten.length noPf) =
              ⟨some { p1 with st := R2.st, error := R2.err }, R2.consumed,
                procEvents p.buffer_size R2.events⟩ := by
            have := execute_run p1 (c2 :: cs2).flatten (c2 :: cs2).flatten.length noPf
              (Or.inl hp1ok)
            rw [List.take_length] at this
            simpa [hp1] using this
          rw [hx] at ihc
          simp only at ihc
          rw [execChunks_cons, hfirst]
          rw [if_pos herr] at hsingle
          simp only at hsingle
          rw [hjoin, hsingle]
          simp only
          rw [← hR1]
          constructor
          · rw [ihc.1]
          · have hb2 : coalesce (execChunks (some p1) (c2 :: cs2)).2 =
                coalesce R2.events := by
              rw [ihc.2]; exact coalesce_procEvents _ _
            have hcongr := coalesce_append_congr
              (coalesce_procEvents p.buffer_size R1.events) hb2
            rw [hcongr, coalesce_procEvents]
      · -- the first chunk already fails; later chunks are blocked
        have hRp : R1.err ≠ .PAUSED := by
          rw [hR1]; exact runLoop_err_ne_paused p.boundary c p.st
        rw [execChunks_cons, hfirst]
        rw [if_neg herr] at hsingle
        rw [hjoin, hsingle]
        simp only
        rw [execChunks_blocked cs { p with st := R1.st, error := R1.err }
          (by simpa using herr) (by simpa using hRp)]
        simp [hR1]

/-! ### Concrete fixtures (bodies from the repository's test suites) -/

/-- A fresh parser for boundary `"bound"`, as built by
`multipart_parser_init ("bound")` throughout the test suites. -/
def pTest : multipart_parser_t :=
  { boundary := [98, 111, 117, 110, 100], cap := 5, st := .preamble 0,
    error := .OK, user_data := none, buffer_size := 0 }

/-- `"--bound\r\nA: b\r\n\r\nhi"`: a body prefix whose first part begins at
byte 8 (the LF of the boundary line). -/
def body9 : List Nat :=
  [45, 45, 98, 111, 117, 110, 100, 13, 10, 65, 58, 32, 98, 13, 10, 13, 10,
    104, 105]

/-- The callback-return model of `test_error_callback_pause`: the
`on_part_data_begin` callback returns 1 (pause), every other callback
returns 0. -/
def pfPause : Event → Bool := fun e => decide (e = Event.partBegin)

/-! ### C1 -/

/-- C1: chunking invariance of `execute`.  For every parser and every
partition of a body into consecutive chunks (including one-byte chunks),
feeding the chunks through successive `execute` calls on one parser
reaches the same final parser as feeding the whole body in a single
`execute` call, and the two callback sequences agree once adjacent
data invocations of the same kind are merged — i.e. they carry the same
callbacks with the same concatenated data payloads. -/
theorem C1_chunking_invariance (p : multipart_parser_t)
    (chunks : List (List Nat)) (hne : chunks ≠ []) :
    (execChunks (some p) chunks).1 =
      (multipart_parser_execute (some p) (some chunks.flatten)
        chunks.flatten.length noPf).p ∧
    coalesce (execChunks (some p) chunks).2 =
      coalesce (multipart_parser_execute (some p) (some chunks.flatten)
        chunks.flatten.length noPf).events :=
  execChunks_spec chunks p hne

/-- C1 witness: the invariance evaluated at a concrete parser and a
concrete two-chunk split. -/
theorem C1_chunking_invariance_witness :
    (execChunks (some pTest) [[45], [45, 98]]).1 =
      (multipart_parser_execute (some pTest) (some [[45], [45, 98]].flatten)
        [[45], [45, 98]].flatten.length noPf).p ∧
    coalesce (execChunks (some pTest) [[45], [45, 98]]).2 =
      coalesce (multipart_parser_execute (some pTest)
        (some [[45], [45, 98]].flatten) [[45], [45, 98]].flatten.length
        noPf).events :=
  C1_chunking_invariance pTest [[45], [45, 98]] (by decide)

/-! ### C6 -/

/-- C6: output-buffering transparency.  For every parser, input and
configured output-buffer size, the concatenation of all data-callback
payloads delivered per kind (header field, header value, part data) with
the buffer enabled equals the concatenation with buffer size 0; the
bytes-consumed result of `execute` and the resulting error are unchanged
— only the grouping of individual invocations may differ. -/
theorem C6_buffering_transparency (p : multipart_parser_t) (size : Nat)
    (buf : Option (List Nat)) (len : Nat) (pf : Event → Bool) :
    (∀ k : DKind,
      concatK k (multipart_parser_execute
        (some { p with buffer_size := size }) buf len pf).events =
      concatK k (multipart_parser_execute
        (some { p with buffer_size := 0 }) buf len pf).events) ∧
    (multipart_parser_execute (some { p with buffer_size := size })
        buf len pf).consumed =
      (multipart_parser_execute (some { p with buffer_size := 0 })
        buf len pf).consumed ∧
    multipart_parser_get_error (multipart_parser_execute
        (some { p with buffer_size := size }) buf len pf).p =
      multipart_parser_get_error (multipart_parser_execute
        (some { p with buffer_size := 0 }) buf len pf).p := by
  cases buf with
  | none =>
    by_cases h : len = 0 <;>
      simp [multipart_parser_execute, h, multipart_parser_get_error, concatK]
  | some bs =>
    by_cases h : p.error ≠ .OK ∧ p.error ≠ .PAUSED
    · rw [execute_blocked { p with buffer_size := size } bs len pf h.1 h.2,
        execute_blocked { p with buffer_size := 0 } bs len pf h.1 h.2]
      simp [multipart_parser_get_error]
    · have hok : p.error = .OK ∨ p.error = .PAUSED := by
        by_cases h1 : p.error = .OK
        · exact Or.inl h1
        · right
          by_contra h2
          exact h ⟨h1, h2⟩
      rw [execute_run { p with buffer_size := size } bs len pf hok,
        execute_run { p with buffer_size := 0 } bs len pf hok]
      refine ⟨fun k => ?_, rfl, rfl⟩
      simp only [concatK_procEvents]

/-! ### C7 -/

/-- C7: reset semantics.  Resetting with no boundary keeps the current
boundary; resetting with a boundary that fits re-installs it; both clear
the error to OK and return the engine to its initial matcher state while
preserving the boundary storage capacity, the configured buffer size
(callback settings) and the user-data reference.  Reset fails with -1 and
changes nothing when the parser reference is absent or when the new
boundary exceeds the maximum (allocated) length. -/
theorem C7_reset_semantics :
    multipart_parser_reset none none = (-1, none) ∧
    (∀ nb : List Nat, multipart_parser_reset none (some nb) = (-1, none)) ∧
    (∀ p : multipart_parser_t,
      multipart_parser_reset (some p) none =
        (0, some { p with st := .preamble 0, error := .OK })) ∧
    (∀ (p : multipart_parser_t) (nb : List Nat), nb.length ≤ p.cap →
      multipart_parser_reset (some p) (some nb) =
        (0, some { p with boundary := nb, st := .preamble 0, error := .OK })) ∧
    (∀ (p : multipart_parser_t) (nb : List Nat), nb.length > p.cap →
      multipart_parser_reset (some p) (some nb) = (-1, some p)) := by
  refine ⟨rfl, fun nb => rfl, fun p => rfl, ?_, ?_⟩
  · intro p nb h
    simp [multipart_parser_reset, Nat.not_lt.mpr h]
  · intro p nb h
    simp [multipart_parser_reset, h]

/-- C7 witness: resetting `pTest` (boundary `"bound"`, capacity 5) to
`"xyz"` succeeds and clears the error; resetting it to the 22-byte
boundary of `test_reset_boundary_too_long` fails with -1 and no change. -/
theorem C7_reset_semantics_witness :
    multipart_parser_reset (some { pTest with error := .INVALID_HEADER_FIELD })
        (some [120, 121, 122]) =
      (0, some { pTest with
        boundary := [120, 121, 122]
        st := .preamble 0
        error := .OK }) ∧
    multipart_parser_reset (some pTest)
        (some [118, 101, 114, 121, 108, 111, 110, 103, 98, 111, 117, 110, 100,
          97, 114, 121, 115, 116, 114, 105, 110, 103]) = (-1, some pTest) :=
  ⟨C7_reset_semantics.2.2.2.1 { pTest with error := .INVALID_HEADER_FIELD }
      [120, 121, 122] (by decide),
    C7_reset_semantics.2.2.2.2 pTest
      [118, 101, 114, 121, 108, 111, 110, 103, 98, 111, 117, 110, 100, 97,
        114, 121, 115, 116, 114, 105, 110, 103] (by decide)⟩

/-! ### C8 -/

/-- C8: `execute` argument validation.  A NULL parser returns 0 with no
side effects; a valid parser with a NULL buffer and non-zero length
returns 0 and sets `INVALID_STATE`; a NULL buffer with zero length is a
valid no-op that succeeds (parser unchanged, nothing consumed, no
callbacks). -/
theorem C8_execute_argument_validation :
    (∀ (buf : Option (List Nat)) (len : Nat) (pf : Event → Bool),
      multipart_parser_execute none buf len pf = ⟨none, 0, []⟩) ∧
    (∀ (p : multipart_parser_t) (len : Nat) (pf : Event → Bool), len ≠ 0 →
      multipart_parser_execute (some p) none len pf =
        ⟨some { p with error := .INVALID_STATE }, 0, []⟩) ∧
    (∀ (p : multipart_parser_t) (pf : Event → Bool),
      multipart_parser_execute (some p) none 0 pf = ⟨some p, 0, []⟩) := by
  refine ⟨fun buf len pf => rfl, ?_, fun p pf => rfl⟩
  intro p len pf hlen
  simp [multipart_parser_execute, hlen]

/-- C8 witness: the NULL-buffer/non-zero-length case evaluated at a
concrete parser and length 100, as in `test_null_buffer_safety`. -/
theorem C8_execute_argument_validation_witness :
    multipart_parser_execute (some pTest) none 100 noPf =
      ⟨some { pTest with error := .INVALID_STATE }, 0, []⟩ :=
  C8_execute_argument_validation.2.1 pTest 100 noPf (by decide)

/-! ### C10 -/

/-- C10: NULL-safety of the user-data accessors.  `set_data` on an absent
parser is a safe no-op and `get_data` on an absent parser returns NULL;
for a valid parser, `get_data` returns exactly the reference most recently
passed to `set_data`, and an intervening `execute` call (any buffer,
length and callback outcome) leaves it unchanged. -/
theorem C10_user_data_accessors :
    (∀ d : Option Nat, multipart_parser_set_data none d = none) ∧
    multipart_parser_get_data none = none ∧
    (∀ (p : multipart_parser_t) (d : Option Nat),
      multipart_parser_get_data (multipart_parser_set_data (some p) d) = d) ∧
    (∀ (p : multipart_parser_t) (d : Option Nat) (buf : Option (List Nat))
        (len : Nat) (pf : Event → Bool),
      multipart_parser_get_data
        (multipart_parser_execute (multipart_parser_set_data (some p) d)
          buf len pf).p = d) := by
  refine ⟨fun d => rfl, rfl, fun p d => rfl, ?_⟩
  intro p d buf len pf
  cases buf with
  | none =>
    simp only [multipart_parser_set_data, multipart_parser_execute]
    split
    · rfl
    · rfl
  | some bs =>
    simp only [multipart_parser_set_data, multipart_parser_execute]
    split
    · rfl
    · rfl

/-! ### C9 -/

/-- C9 counterexample: the claim "for every reachable parser state with
error not equal to OK, a subsequent execute call does not advance the
state machine or fire further callbacks until a reset clears the error"
is false as stated, because `PAUSED` is a non-OK error code and a paused
parser does advance.  Concretely: pausing `on_part_data_begin` while
parsing `"--bound\r\nA: b\r\n\r\nhi"` leaves a reachable parser whose
error is `PAUSED` (not OK), yet re-invoking `execute` on the remainder —
with no intervening reset — fires callbacks and changes the machine
state. -/
theorem C9_sticky_error_counterexample :
    multipart_parser_get_error
        (multipart_parser_execute (some pTest) (some body9) body9.length
          pfPause).p = .PAUSED ∧
    MPPE.PAUSED ≠ MPPE.OK ∧
    (multipart_parser_execute
        (multipart_parser_execute (some pTest) (some body9) body9.length
          pfPause).p
        (some (body9.drop 8)) (body9.length - 8) noPf).events ≠ [] ∧
    (multipart_parser_execute
        (multipart_parser_execute (some pTest) (some body9) body9.length
          pfPause).p
        (some (body9.drop 8)) (body9.length - 8) noPf).p ≠
      (multipart_parser_execute (some pTest) (some body9) body9.length
        pfPause).p := by
  decide

/-- C9 (amended): for every parser state whose error is neither OK nor
PAUSED, a subsequent `execute` call (with a supplied buffer) consumes
nothing, fires no callbacks and leaves the parser unchanged until a reset
clears the error; `PAUSED` is exempt — it is cleared by the next `execute`
call, which resumes parsing. -/
theorem C9_sticky_error (p : multipart_parser_t) (bs : List Nat) (len : Nat)
    (pf : Event → Bool) (h1 : p.error ≠ .OK) (h2 : p.error ≠ .PAUSED) :
    multipart_parser_execute (some p) (some bs) len pf = ⟨some p, 0, []⟩ :=
  execute_blocked p bs len pf h1 h2

/-- C9 witness: a parser stuck with `INVALID_HEADER_FIELD` ignores further
input. -/
theorem C9_sticky_error_witness :
    multipart_parser_execute (some { pTest with error := .INVALID_HEADER_FIELD })
        (some [45, 45]) 2 noPf =
      ⟨some { pTest with error := .INVALID_HEADER_FIELD }, 0, []⟩ :=
  C9_sticky_error { pTest with error := .INVALID_HEADER_FIELD } [45, 45] 2 noPf
    (by decide) (by decide)

/-! ### C5 -/

/-- C5: pause/resume contract.  Whenever a callback returns a non-zero
signal during `execute` (the call ends with error `PAUSED`), consumption
halts immediately: `execute` returns a count strictly less than the input
length and `get_error` reports `PAUSED`.  Re-invoking `execute` with the
unconsumed remainder (the callbacks no longer pausing) continues parsing
to the same final outcome as an unpaused run on the whole input: the same
final parser, the same remaining callbacks — the two traces concatenated
agree with the unpaused trace up to merging of adjacent same-kind data
invocations — and the consumed counts add up. -/
theorem C5_pause_resume (p : multipart_parser_t) (bs : List Nat)
    (pf : Event → Bool) (hok : p.error = .OK)
    (hpause : multipart_parser_get_error
      (multipart_parser_execute (some p) (some bs) bs.length pf).p =
        .PAUSED) :
    (multipart_parser_execute (some p) (some bs) bs.length pf).consumed <
      bs.length ∧
    (multipart_parser_execute
        (multipart_parser_execute (some p) (some bs) bs.length pf).p
        (some (bs.drop (multipart_parser_execute (some p) (some bs)
          bs.length pf).consumed))
        (bs.length - (multipart_parser_execute (some p) (some bs)
          bs.length pf).consumed) noPf).p =
      (multipart_parser_execute (some p) (some bs) bs.length noPf).p ∧
    coalesce
        ((multipart_parser_execute (some p) (some bs) bs.length pf).events ++
          (multipart_parser_execute
            (multipart_parser_execute (some p) (some bs) bs.length pf).p
            (some (bs.drop (multipart_parser_execute (some p) (some bs)
              bs.length pf).consumed))
            (bs.length - (multipart_parser_execute (some p) (some bs)
              bs.length pf).consumed) noPf).events) =
      coalesce (multipart_parser_execute (some p) (some bs) bs.length
        noPf).events ∧
    (multipart_parser_execute (some p) (some bs) bs.length pf).consumed +
        (multipart_parser_execute
          (multipart_parser_execute (some p) (some bs) bs.length pf).p
          (some (bs.drop (multipart_parser_execute (some p) (some bs)
            bs.length pf).consumed))
          (bs.length - (multipart_parser_execute (some p) (some bs)
            bs.length pf).consumed) noPf).consumed =
      (multipart_parser_execute (some p) (some bs) bs.length noPf).consumed
    := by
  have hrunP := execute_run p bs bs.length pf (Or.inl hok)
  rw [List.take_length] at hrunP
  have herr : (runLoop p.boundary pf p.st bs).err = .PAUSED := by
    rw [hrunP] at hpause
    simpa [multipart_parser_get_error] using hpause
  obtain ⟨hlt, hst, herr2, hcons, hev⟩ :=
    runLoop_pause_resume p.boundary pf bs p.st herr
  have hrunN := execute_run p bs bs.length noPf (Or.inl hok)
  rw [List.take_length] at hrunN
  have htake : (bs.drop (runLoop p.boundary pf p.st bs).consumed).take
      (bs.length - (runLoop p.boundary pf p.st bs).consumed) =
      bs.drop (runLoop p.boundary pf p.st bs).consumed := by
    rw [← List.length_drop]
    exact List.take_length _
  have hresume := execute_run
    { p with
      st := (runLoop p.boundary pf p.st bs).st
      error := (runLoop p.boundary pf p.st bs).err }
    (bs.drop (runLoop p.boundary pf p.st bs).consumed)
    (bs.length - (runLoop p.boundary pf p.st bs).consumed) noPf (Or.inr herr)
  rw [htake] at hresume
  simp only at hresume
  simp only [hrunP]
  simp only [hresume]
  simp only [hrunN]
  refine ⟨hlt, ?_, ?_, hcons⟩
  · rw [hst, herr2]
  · have hc := coalesce_append_congr
      (coalesce_procEvents p.buffer_size (runLoop p.boundary pf p.st bs).events)
      (coalesce_procEvents p.buffer_size
        (runLoop p.boundary noPf (runLoop p.boundary pf p.st bs).st
          (bs.drop (runLoop p.boundary pf p.st bs).consumed)).events)
    rw [hc, hev, coalesce_procEvents]

/-- C5 witness: pausing `on_part_data_begin` on `"--bound\r\nA: b\r\n\r\nhi"`
pauses after 8 bytes; resuming with the remainder reaches the unpaused
outcome. -/
theorem C5_pause_resume_witness :
    (multipart_parser_execute (some pTest) (some body9) body9.length
        pfPause).consumed < body9.length ∧
    (multipart_parser_execute
        (multipart_parser_execute (some pTest) (some body9) body9.length
          pfPause).p
        (some (body9.drop (multipart_parser_execute (some pTest) (some body9)
          body9.length pfPause).consumed))
        (body9.length - (multipart_parser_execute (some pTest) (some body9)
          body9.length pfPause).consumed) noPf).p =
      (multipart_parser_execute (some pTest) (some body9) body9.length
        noPf).p := by
  have h := C5_pause_resume pTest body9 pfPause (by decide) (by decide)
  exact ⟨h.1, h.2.1⟩

/-! ### C2 -/

lemma execute_value_cr_free (po : Option multipart_parser_t)
    (buf : Option (List Nat)) (len : Nat) (pf : Event → Bool) :
    ¬ 13 ∈ concatK .value (multipart_parser_execute po buf len pf).events := by
  cases po with
  | none => simp [multipart_parser_execute, concatK]
  | some p =>
    cases buf with
    | none =>
      by_cases h : len = 0 <;> simp [multipart_parser_execute, h, concatK]
    | some bs =>
      by_cases h : p.error ≠ .OK ∧ p.error ≠ .PAUSED
      · rw [execute_blocked p bs len pf h.1 h.2]; simp [concatK]
      · have hok : p.error = .OK ∨ p.error = .PAUSED := by
          by_cases h1 : p.error = .OK
          · exact Or.inl h1
          · right
            by_contra h2
            exact h ⟨h1, h2⟩
        rw [execute_run p bs len pf hok]
        simp only
        rw [concatK_procEvents]
        exact runLoop_value_concat_cr_free p.boundary pf (bs.take len) p.st

lemma execChunks_value_cr_free (chunks : List (List Nat)) :
    ∀ po : Option multipart_parser_t,
    ¬ 13 ∈ concatK .value (execChunks po chunks).2 := by
  induction chunks with
  | nil => intro po; simp [execChunks, concatK]
  | cons c cs ih =>
    intro po
    rw [execChunks_cons]
    simp only
    rw [concatK_append]
    intro hmem
    rcases List.mem_append.mp hmem with h | h
    · exact execute_value_cr_free po (some c) c.length noPf h
    · exact ih _ h

/-- A fresh parser for boundary `"testbound"`, as in
`test_binary_with_cr`. -/
def crParser : multipart_parser_t :=
  { boundary := [116, 101, 115, 116, 98, 111, 117, 110, 100], cap := 9,
    st := .preamble 0, error := .OK, user_data := none, buffer_size := 0 }

/-- The body of `test_binary_with_cr`:
`"--testbound\r\nContent-Type: application/octet-stream\r\n\r\n"` followed
by the five binary bytes `0x01 0x02 0x0D 0x03 0x04` — the `0x0D` (CR) is
not followed by LF, so it is ordinary binary part data. -/
def crBody : List Nat :=
  [45, 45, 116, 101, 115, 116, 98, 111, 117, 110, 100, 13, 10, 67, 111, 110,
    116, 101, 110, 116, 45, 84, 121, 112, 101, 58, 32, 97, 112, 112, 108,
    105, 99, 97, 116, 105, 111, 110, 47, 111, 99, 116, 101, 116, 45, 115,
    116, 114, 101, 97, 109, 13, 10, 13, 10] ++ [1, 2, 13, 3, 4]

/-! ### C3 -/

/-- A fresh parser for boundary `"xyz123"`, as in
`test_binary_with_boundary_like_data`. -/
def c3parser : multipart_parser_t :=
  { boundary := [120, 121, 122, 49, 50, 51], cap := 6, st := .preamble 0,
    error := .OK, user_data := none, buffer_size := 0 }

/-- Part data that contains a proper prefix of the data delimiter
(`"\r\n--xyz1"`) followed by a mismatching byte `Z`. -/
def c3content : List Nat :=
  [97, 98, 99, 13, 10, 45, 45, 120, 121, 122, 49, 90]

/-- `"--xyz123\r\nA: b\r\n\r\n"` ++ `c3content` ++ `"\r\n--xyz123--\r\n"`. -/
def c3body : List Nat :=
  [45, 45, 120, 121, 122, 49, 50, 51, 13, 10, 65, 58, 32, 98, 13, 10, 13,
    10] ++ c3content ++
    [13, 10, 45, 45, 120, 121, 122, 49, 50, 51, 45, 45, 13, 10]

/-- C3 counterexample: the claim's parenthetical "flushed together with
the mismatching byte, and matching restarts at index 0" fails when the
mismatching byte is itself CR (0x0D).  With boundary `"b"` (delimiter
`"\r\n--b"`), partial-match index 2 and next byte CR, the engine flushes
only the withheld prefix `"\r\n"` and restarts matching at index 1 with
the CR withheld — it does not flush `"\r\n" ++ CR` and restart at 0
(doing so would drop the CR's potential as a new delimiter start and
break boundary recognition). -/
theorem C3_boundary_partial_match_counterexample :
    step [98] (.partData 2) 13 =
      .ok (.partData 1, some (.data .part [13, 10])) ∧
    step [98] (.partData 2) 13 ≠
      .ok (.partData 0, some (.data .part [13, 10, 13])) := by
  decide

/-- C3 (amended): boundary partial-match discipline.  On a mismatch at
partial-match index `k`, the withheld prefix bytes are emitted as ordinary
part data: together with the mismatching byte and with matching restarted
at index 0 when that byte is not CR; the prefix alone, with the CR
starting a fresh tentative match at index 1, when it is CR.  On a full
boundary match, no data event is emitted — none of the withheld
tentatively-matched bytes are delivered as part data.  Concretely, for
`test_binary_with_boundary_like_data`-style data containing the delimiter
prefix `"\r\n--xyz1"` not followed by the rest of the boundary, the part
data delivered is exactly the original content, and the full parse ends
the part and the body exactly once. -/
theorem C3_boundary_partial_match :
    (∀ (B : List Nat) (k b : Nat), k < (dataDelim B).length →
      b ≠ (dataDelim B).getD k 0 →
      step B (.partData k) b =
        (if b = 13 then
          .ok (.partData 1, some (.data .part ((dataDelim B).take k)))
        else
          .ok (.partData 0,
            some (.data .part ((dataDelim B).take k ++ [b]))))) ∧
    (∀ (B : List Nat) (k b : Nat), k + 1 = (dataDelim B).length →
      b = (dataDelim B).getD k 0 →
      step B (.partData k) b = .ok (.boundaryMatched, some .partDataEnd)) ∧
    (multipart_parser_execute (some c3parser) (some c3body) c3body.length
        noPf).events =
      [.partBegin, .data .field [65], .data .value [98], .headersComplete,
        .data .part c3content, .partDataEnd, .bodyEnd] ∧
    (multipart_parser_execute (some c3parser) (some c3body) c3body.length
        noPf).consumed = c3body.length ∧
    multipart_parser_get_error (multipart_parser_execute (some c3parser)
        (some c3body) c3body.length noPf).p = .OK := by
  refine ⟨?_, ?_, by decide, by decide, by decide⟩
  · intro B k b hk hb
    have hcond : ¬(k < (dataDelim B).length ∧ b = (dataDelim B).getD k 0) :=
      fun h => hb h.2
    by_cases hb13 : b = 13
    · have hk0 : k ≠ 0 := by
        intro h0
        subst h0
        subst hb13
        exact hb rfl
      simp only [step]
      rw [if_neg hcond, if_neg hk0, if_pos hb13]
    · by_cases hk0 : k = 0
      · subst hk0
        simp only [step]
        rw [if_neg hcond]
        simp [hb13]
      · simp only [step]
        rw [if_neg hcond, if_neg hk0, if_neg hb13]
  · intro B k b hk1 hb
    have hk : k < (dataDelim B).length := by omega
    simp only [step]
    rw [if_pos ⟨hk, hb⟩, if_pos hk1]

/-- C3 witness: the mismatch rule evaluated at boundary `"xyz123"`,
partial-match index 8 and byte `Z`, and the full-match rule at index 9
and byte `3`. -/
theorem C3_boundary_partial_match_witness :
    step [120, 121, 122, 49, 50, 51] (.partData 8) 90 =
      .ok (.partData 0, some (.data .part
        ((dataDelim [120, 121, 122, 49, 50, 51]).take 8 ++ [90]))) ∧
    step [120, 121, 122, 49, 50, 51] (.partData 9) 51 =
      .ok (.boundaryMatched, some .partDataEnd) := by
  constructor
  · have h := C3_boundary_partial_match.1 [120, 121, 122, 49, 50, 51] 8 90
      (by decide) (by decide)
    simpa using h
  · exact C3_boundary_partial_match.2.1 [120, 121, 122, 49, 50, 51] 9 51
      (by decide) (by decide)

/-! ### C4 machinery: canonical multipart bodies and their traces -/

/-- A part of a canonical multipart body: a list of header
(field-name, field-value) pairs and the raw content bytes. -/
structure PartSpec where
  headers : List (List Nat × List Nat)
  content : List Nat

/-- Render one header line: `field ": " value CRLF`. -/
def renderHeader (h : List Nat × List Nat) : List Nat :=
  h.1 ++ 58 :: 32 :: h.2 ++ [13, 10]

/-- Render a header block. -/
def renderHeaders (hs : List (List Nat × List Nat)) : List Nat :=
  (hs.map renderHeader).flatten

/-- Render one part: headers, the blank line, then the content. -/
def renderPart (pt : PartSpec) : List Nat :=
  renderHeaders pt.headers ++ [13, 10] ++ pt.content

/-- Render everything after the opening boundary line: each part followed
by the data delimiter, separated by CRLF, the last one closed by
`"--" CRLF`. -/
def bodyTail (B : List Nat) : List PartSpec → List Nat
  | [] => []
  | [pt] => renderPart pt ++ dataDelim B ++ [45, 45, 13, 10]
  | pt :: rest => renderPart pt ++ dataDelim B ++ [13, 10] ++ bodyTail B rest

/-- Render a canonical RFC 2046 multipart body:
`"--" boundary CRLF part₁ CRLF "--" boundary CRLF ... partₙ CRLF "--"
boundary "--" CRLF`. -/
def renderBody (B : List Nat) (parts : List PartSpec) : List Nat :=
  openDelim B ++ [13, 10] ++ bodyTail B parts

/-- Well-formed header: non-empty token field name; value free of CR and
LF. -/
def WFheader (h : List Nat × List Nat) : Prop :=
  h.1 ≠ [] ∧ (∀ b ∈ h.1, isTokenChar b = true) ∧
    (∀ b ∈ h.2, b ≠ 13 ∧ b ≠ 10)

/-- Well-formed part for boundary `B`: well-formed headers and content
that does not contain the data delimiter (MIME requires the boundary not
to occur in the data). -/
def WFpart (B : List Nat) (pt : PartSpec) : Prop :=
  (∀ h ∈ pt.headers, WFheader h) ∧ ¬ (dataDelim B) <:+: pt.content

/-- The lifecycle events the multi-part claim counts: `on_part_data_begin`,
`on_part_data_end`, `on_body_end`. -/
def lifeBE : Event → Bool := fun e =>
  decide (e = Event.partBegin ∨ e = Event.partDataEnd ∨ e = Event.bodyEnd)

/-- Number of occurrences of one callback in a trace. -/
def countE (e : Event) : List Event → Nat
  | [] => 0
  | x :: t => (if x = e then 1 else 0) + countE e t

/-- The begin/end lifecycle pattern produced after the first `partBegin`
for a non-empty list of parts. -/
def bePattern : List PartSpec → List Event
  | [] => []
  | [_] => [.partDataEnd, .bodyEnd]
  | _ :: rest => .partDataEnd :: .partBegin :: bePattern rest

lemma lifeBE_data (k : DKind) (xs : List Nat) :
    lifeBE (Event.data k xs) = false := rfl

lemma filter_lifeBE_push (e : Event) (l : List Event) :
    (push e l).filter lifeBE = (e :: l).filter lifeBE := by
  cases e with
  | data k xs =>
    cases l with
    | nil => rfl
    | cons e' t =>
      cases e' with
      | data k' ys =>
        by_cases h : k = k'
        · subst h
          simp [push, List.filter, lifeBE_data]
        · simp [push, h]
      | partBegin => simp [push]
      | headersComplete => simp [push]
      | partDataEnd => simp [push]
      | bodyEnd => simp [push]
  | partBegin => cases l <;> simp [push]
  | headersComplete => cases l <;> simp [push]
  | partDataEnd => cases l <;> simp [push]
  | bodyEnd => cases l <;> simp [push]

lemma filter_lifeBE_coalesce (l : List Event) :
    (coalesce l).filter lifeBE = l.filter lifeBE := by
  induction l with
  | nil => rfl
  | cons e t ih =>
    rw [coalesce, filter_lifeBE_push]
    cases he : lifeBE e <;> simp [List.filter, he, ih]

lemma filter_lifeBE_bufRun (size : Nat) : ∀ (l : List Event)
    (acc : Option (DKind × List Nat)),
    (bufRun size l acc).filter lifeBE = l.filter lifeBE := by
  intro l
  induction l with
  | nil =>
    intro acc
    match acc with
    | none => rfl
    | some (k, xs) => simp [bufRun, List.filter, lifeBE_data]
  | cons e rest ih =>
    intro acc
    cases e with
    | data k xs =>
      match acc with
      | none =>
        by_cases h : size ≤ xs.length
        · simp only [bufRun, if_pos h]
          simp [List.filter, lifeBE_data, ih none]
        · simp only [bufRun, if_neg h]
          simp [List.filter, lifeBE_data, ih (some (k, xs))]
      | some (k', ys) =>
        by_cases hk : k' = k
        · subst hk
          have key : bufRun size (Event.data k' xs :: rest) (some (k', ys)) =
              if size ≤ (ys ++ xs).length then
                Event.data k' (ys ++ xs) :: bufRun size rest none
              else bufRun size rest (some (k', ys ++ xs)) := by
            simp [bufRun]
          rw [key]
          by_cases h : size ≤ (ys ++ xs).length
          · rw [if_pos h]
            simp [List.filter, lifeBE_data, ih none]
          · rw [if_neg h, ih (some (k', ys ++ xs))]
            simp [List.filter, lifeBE_data]
        · by_cases h : size ≤ xs.length
          · simp only [bufRun, if_neg hk, if_pos h]
            simp [List.filter, lifeBE_data, ih none]
          · simp only [bufRun, if_neg hk, if_neg h]
            simp [List.filter, lifeBE_data, ih (some (k, xs))]
    | partBegin =>
      match acc with
      | none => simp [bufRun, List.filter, ih none]
      | some (k', ys) => simp [bufRun, List.filter, lifeBE_data, ih none]
    | headersComplete =>
      match acc with
      | none => simp [bufRun, List.filter, ih none]
      | some (k', ys) => simp [bufRun, List.filter, lifeBE_data, ih none]
    | partDataEnd =>
      match acc with
      | none => simp [bufRun, List.filter, ih none]
      | some (k', ys) => simp [bufRun, List.filter, lifeBE_data, ih none]
    | bodyEnd =>
      match acc with
      | none => simp [bufRun, List.filter, ih none]
      | some (k', ys) => simp [bufRun, List.filter, lifeBE_data, ih none]

lemma filter_lifeBE_procEvents (n : Nat) (m : List Event) :
    (procEvents n m).filter lifeBE = m.filter lifeBE := by
  unfold procEvents
  by_cases h : n = 0
  · simp [h, filter_lifeBE_coalesce]
  · simp [h, filter_lifeBE_bufRun]

lemma countE_filter_lifeBE (e : Event) (he : lifeBE e = true) :
    ∀ l : List Event, countE e (l.filter lifeBE) = countE e l := by
  intro l
  induction l with
  | nil => rfl
  | cons x t ih =>
    by_cases hx : lifeBE x
    · simp only [List.filter, hx, countE, ih]
    · have hxe : x ≠ e := by
        intro h0
        rw [h0] at hx
        exact hx he
      simp only [List.filter, hx, countE, ih, if_neg hxe]
      simp

lemma take_succ_getD (l : List Nat) (k : Nat) (hk : k < l.length) :
    l.take (k + 1) = l.take k ++ [l.getD k 0] := by
  rw [List.take_succ, List.getD_eq_getElem l 0 hk, List.getElem?_eq_getElem hk]
  rfl

lemma dataDelim_tail_ne13 (B : List Nat) (hB : ¬ 13 ∈ B) :
    ∀ j, 1 ≤ j → (dataDelim B).getD j 0 ≠ 13
  | 0, h => absurd h (by simp)
  | 1, _ => by simp [dataDelim]
  | 2, _ => by simp [dataDelim]
  | 3, _ => by simp [dataDelim]
  | (n + 4), _ => by
      have hEqD : (dataDelim B).getD (n + 4) 0 = B.getD n 0 := rfl
      rw [hEqD]
      by_cases hn : n < B.length
      · intro hEq
        apply hB
        rw [← hEq]
        rw [List.getD_eq_getElem B 0 hn]
        exact List.getElem_mem hn
      · rw [List.getD_eq_default B 0 (by omega)]
        simp

lemma dataDelim_len (B : List Nat) : (dataDelim B).length = B.length + 4 := by
  simp [dataDelim]

lemma no_infix_of_suffix {D w v : List Nat} (hno : ¬ D <:+: v)
    (hs : w <:+ v) : ¬ D <:+: w :=
  fun h => hno (h.trans hs.isInfix)

lemma tokenChar_ne (b : Nat) (h : isTokenChar b = true) : b ≠ 13 ∧ b ≠ 58 := by
  constructor <;> rintro rfl <;> exact absurd h (by decide)

lemma fieldScan (B : List Nat) (f : List Nat)
    (hf : ∀ b ∈ f, isTokenChar b = true) :
    runLoop B noPf .headerField f =
      ⟨.headerField, .OK, f.length,
        f.map (fun b => Event.data .field [b])⟩ := by
  induction f with
  | nil => rfl
  | cons b t ih =>
    have hb := hf b (List.mem_cons_self b t)
    have hne := tokenChar_ne b hb
    have hstep : step B .headerField b =
        .ok (.headerField, some (.data .field [b])) := by
      simp only [step]
      rw [if_neg hne.2, if_neg hne.1, if_pos hb]
    rw [runLoop_cons_some B noPf .headerField b t .headerField
      (.data .field [b]) hstep rfl]
    rw [ih (fun x hx => hf x (List.mem_cons_of_mem b hx))]
    simp

lemma valueScan (B : List Nat) (v : List Nat)
    (hv : ∀ b ∈ v, b ≠ 13 ∧ b ≠ 10) :
    ∀ s, (s = MState.headerValueStart ∨ s = MState.headerValue) →
    ∃ s' evs, runLoop B noPf s v = ⟨s', .OK, v.length, evs⟩ ∧
      (s' = MState.headerValueStart ∨ s' = MState.headerValue) ∧
      ∀ e ∈ evs, ∃ xs, e = Event.data .value xs := by
  induction v with
  | nil =>
    intro s hs
    exact ⟨s, [], rfl, hs, by simp⟩
  | cons b t ih =>
    intro s hs
    have hb := hv b (List.mem_cons_self b t)
    have ht : ∀ x ∈ t, x ≠ 13 ∧ x ≠ 10 :=
      fun x hx => hv x (List.mem_cons_of_mem b hx)
    rcases hs with hs | hs
    · subst hs
      by_cases h32 : b = 32
      · have hstep : step B .headerValueStart b =
            .ok (.headerValueStart, none) := by
          simp only [step]
          rw [if_pos h32]
        rw [runLoop_cons_none B noPf .headerValueStart b t .headerValueStart
          hstep]
        obtain ⟨s', evs, hrun, hs', hP⟩ := ih ht .headerValueStart (Or.inl rfl)
        rw [hrun]
        exact ⟨s', evs, rfl, hs', hP⟩
      · have hstep : step B .headerValueStart b =
            .ok (.headerValue, some (.data .value [b])) := by
          simp only [step]
          rw [if_neg h32, if_neg hb.1, if_neg hb.2]
        rw [runLoop_cons_some B noPf .headerValueStart b t .headerValue
          (.data .value [b]) hstep rfl]
        obtain ⟨s', evs, hrun, hs', hP⟩ := ih ht .headerValue (Or.inr rfl)
        rw [hrun]
        refine ⟨s', Event.data .value [b] :: evs, rfl, hs', ?_⟩
        intro e he
        rcases List.mem_cons.mp he with he | he
        · exact ⟨[b], he⟩
        · exact hP e he
    · subst hs
      have hstep : step B .headerValue b =
          .ok (.headerValue, some (.data .value [b])) := by
        simp only [step]
        rw [if_neg hb.1, if_neg hb.2]
      rw [runLoop_cons_some B noPf .headerValue b t .headerValue
        (.data .value [b]) hstep rfl]
      obtain ⟨s', evs, hrun, hs', hP⟩ := ih ht .headerValue (Or.inr rfl)
      rw [hrun]
      refine ⟨s', Event.data .value [b] :: evs, rfl, hs', ?_⟩
      intro e he
      rcases List.mem_cons.mp he with he | he
      · exact ⟨[b], he⟩
      · exact hP e he

lemma runLoop_append_ok (B : List Nat) (a b : List Nat) (s s1 : MState)
    (n1 : Nat) (e1 : List Event)
    (h1 : runLoop B noPf s a = ⟨s1, .OK, n1, e1⟩) :
    runLoop B noPf s (a ++ b) =
      ⟨(runLoop B noPf s1 b).st, (runLoop B noPf s1 b).err,
        n1 + (runLoop B noPf s1 b).consumed,
        e1 ++ (runLoop B noPf s1 b).events⟩ := by
  rw [runLoop_append B noPf a b s, h1]
  simp

lemma headerLineScan (B : List Nat) (h : List Nat × List Nat)
    (hWF : WFheader h) :
    ∃ evs, runLoop B noPf .headerFieldStart (renderHeader h) =
      ⟨.headerFieldStart, .OK, (renderHeader h).length, evs⟩ ∧
      ∀ e ∈ evs, (∃ xs, e = Event.data .field xs) ∨
        (∃ xs, e = Event.data .value xs) := by
  obtain ⟨f, v⟩ := h
  obtain ⟨hfne, hftok, hv⟩ := hWF
  cases f with
  | nil => exact absurd rfl hfne
  | cons fb ft =>
    have hfb : isTokenChar fb = true := hftok fb (by simp)
    have hne := tokenChar_ne fb hfb
    have hstep1 : step B .headerFieldStart fb =
        .ok (.headerField, some (.data .field [fb])) := by
      simp only [step]
      rw [if_neg hne.1, if_pos hfb]
    have hft : ∀ b ∈ ft, isTokenChar b = true :=
      fun b hb => hftok b (by simp [hb])
    have hshape : renderHeader (fb :: ft, v) =
        fb :: (ft ++ (58 :: 32 :: (v ++ [13, 10]))) := by
      simp [renderHeader]
    rw [hshape]
    rw [runLoop_cons_some B noPf .headerFieldStart fb
      (ft ++ (58 :: 32 :: (v ++ [13, 10]))) .headerField
      (.data .field [fb]) hstep1 rfl]
    rw [runLoop_append_ok B ft (58 :: 32 :: (v ++ [13, 10])) .headerField
      .headerField ft.length (ft.map (fun b => Event.data .field [b]))
      (fieldScan B ft hft)]
    have hstep58 : step B .headerField 58 = .ok (.headerValueStart, none) := by
      simp [step]
    rw [runLoop_cons_none B noPf .headerField 58 (32 :: (v ++ [13, 10]))
      .headerValueStart hstep58]
    have hstep32 : step B .headerValueStart 32 =
        .ok (.headerValueStart, none) := by
      simp [step]
    rw [runLoop_cons_none B noPf .headerValueStart 32 (v ++ [13, 10])
      .headerValueStart hstep32]
    obtain ⟨s', evs, hrun, hs', hP⟩ := valueScan B v hv .headerValueStart
      (Or.inl rfl)
    rw [runLoop_append_ok B v [13, 10] .headerValueStart s' v.length evs hrun]
    have hstepCR : step B s' 13 = .ok (.headerValueAlmostDone, none) := by
      rcases hs' with h | h <;> subst h <;> simp [step]
    rw [runLoop_cons_none B noPf s' 13 [10] .headerValueAlmostDone hstepCR]
    have hstepLF : step B .headerValueAlmostDone 10 =
        .ok (.headerFieldStart, none) := by
      simp [step]
    rw [runLoop_cons_none B noPf .headerValueAlmostDone 10 []
      .headerFieldStart hstepLF]
    rw [runLoop_nil]
    refine ⟨Event.data .field [fb] ::
      (ft.map (fun b => Event.data .field [b]) ++ (evs ++ [])), ?_, ?_⟩
    · simp [RunRes.mk.injEq, renderHeader]
      try omega
    · intro e he
      rcases List.mem_cons.mp he with he | he
      · exact Or.inl ⟨[fb], he⟩
      · rcases List.mem_append.mp he with he | he
        · obtain ⟨b, _, hbe⟩ := List.mem_map.mp he
          exact Or.inl ⟨[b], hbe.symm⟩
        · exact Or.inr (hP e (by simpa using he))

lemma headersScan (B : List Nat) (hs : List (List Nat × List Nat))
    (hWF : ∀ h ∈ hs, WFheader h) :
    ∃ evs, runLoop B noPf .headerFieldStart (renderHeaders hs) =
      ⟨.headerFieldStart, .OK, (renderHeaders hs).length, evs⟩ ∧
      ∀ e ∈ evs, (∃ xs, e = Event.data .field xs) ∨
        (∃ xs, e = Event.data .value xs) := by
  induction hs with
  | nil => exact ⟨[], by simp [renderHeaders, runLoop_nil], by simp⟩
  | cons h t ih =>
    obtain ⟨evs1, hrun1, hP1⟩ := headerLineScan B h (hWF h (by simp))
    obtain ⟨evs2, hrun2, hP2⟩ := ih (fun x hx => hWF x (by simp [hx]))
    have hshape : renderHeaders (h :: t) =
        renderHeader h ++ renderHeaders t := by
      simp [renderHeaders]
    rw [hshape, runLoop_append_ok B (renderHeader h) (renderHeaders t)
      .headerFieldStart .headerFieldStart (renderHeader h).length evs1 hrun1,
      hrun2]
    refine ⟨evs1 ++ evs2, ?_, ?_⟩
    · simp [RunRes.mk.injEq, renderHeaders]
      try omega
    · intro e he
      rcases List.mem_append.mp he with he | he
      · exact hP1 e he
      · exact hP2 e he

lemma dataScan (B : List Nat) : ∀ (cs : List Nat) (k : Nat),
    k < (dataDelim B).length →
    ¬ (dataDelim B) <:+: ((dataDelim B).take k ++ cs) →
    ∃ k' evs, runLoop B noPf (.partData k) cs =
      ⟨.partData k', .OK, cs.length, evs⟩ ∧
      k' < (dataDelim B).length ∧
      concatK .part evs ++ (dataDelim B).take k' =
        (dataDelim B).take k ++ cs ∧
      ∀ e ∈ evs, ∃ xs, e = Event.data .part xs := by
  intro cs
  induction cs with
  | nil =>
    intro k hk hno
    exact ⟨k, [], runLoop_nil B noPf _, hk, by simp [concatK], by simp⟩
  | cons b t ih =>
    intro k hk hno
    by_cases hmatch : b = (dataDelim B).getD k 0
    · by_cases hfull : k + 1 = (dataDelim B).length
      · exfalso
        apply hno
        have h1 : (dataDelim B).take k ++ b :: t = dataDelim B ++ t := by
          have h2 : (dataDelim B).take k ++ b :: t =
              ((dataDelim B).take k ++ [b]) ++ t := by simp
          rw [h2, hmatch, ← take_succ_getD (dataDelim B) k hk, hfull,
            List.take_length]
        rw [h1]
        exact ⟨[], t, by simp⟩
      · have hstep : step B (.partData k) b =
            .ok (.partData (k + 1), none) := by
          simp only [step]
          rw [if_pos ⟨hk, hmatch⟩, if_neg hfull]
        have hk1 : k + 1 < (dataDelim B).length := by omega
        have htk : (dataDelim B).take (k + 1) ++ t =
            (dataDelim B).take k ++ b :: t := by
          rw [take_succ_getD (dataDelim B) k hk, ← hmatch]
          simp
        have hno1 : ¬ (dataDelim B) <:+: ((dataDelim B).take (k + 1) ++ t) := by
          rw [htk]
          exact hno
        obtain ⟨k', evs, hrun, hk', hcat, hP⟩ := ih (k + 1) hk1 hno1
        rw [runLoop_cons_none B noPf (.partData k) b t (.partData (k + 1))
          hstep, hrun]
        refine ⟨k', evs, by simp, hk', ?_, hP⟩
        rw [hcat]
        exact htk
    · have hcond : ¬(k < (dataDelim B).length ∧ b = (dataDelim B).getD k 0) :=
        fun h => hmatch h.2
      by_cases hk0 : k = 0
      · subst hk0
        have hstep : step B (.partData 0) b =
            .ok (.partData 0, some (.data .part [b])) := by
          simp only [step]
          rw [if_neg hcond]
          simp
        have hno1 : ¬ (dataDelim B) <:+: ((dataDelim B).take 0 ++ t) := by
          simp only [List.take_zero, List.nil_append]
          exact no_infix_of_suffix hno ⟨[b], by simp⟩
        have h0lt : 0 < (dataDelim B).length := by rw [dataDelim_len]; omega
        obtain ⟨k', evs, hrun, hk', hcat, hP⟩ := ih 0 h0lt hno1
        rw [runLoop_cons_some B noPf (.partData 0) b t (.partData 0)
          (.data .part [b]) hstep rfl, hrun]
        refine ⟨k', Event.data .part [b] :: evs, by simp, hk', ?_, ?_⟩
        · have hc : concatK .part (Event.data .part [b] :: evs) =
              [b] ++ concatK .part evs := by
            simp [concatK]
          rw [hc]
          simp only [List.take_zero, List.nil_append] at hcat ⊢
          simp [hcat]
        · intro e he
          rcases List.mem_cons.mp he with he | he
          · exact ⟨[b], he⟩
          · exact hP e he
      · by_cases hb13 : b = 13
        · have hstep : step B (.partData k) b =
              .ok (.partData 1,
                some (.data .part ((dataDelim B).take k))) := by
            simp only [step]
            rw [if_neg hcond, if_neg hk0, if_pos hb13]
          have h1eq : (dataDelim B).take 1 ++ t = b :: t := by
            subst hb13
            rfl
          have hno1 : ¬ (dataDelim B) <:+: ((dataDelim B).take 1 ++ t) := by
            rw [h1eq]
            exact no_infix_of_suffix hno ⟨(dataDelim B).take k, rfl⟩
          have h1lt : 1 < (dataDelim B).length := by rw [dataDelim_len]; omega
          obtain ⟨k', evs, hrun, hk', hcat, hP⟩ := ih 1 h1lt hno1
          rw [runLoop_cons_some B noPf (.partData k) b t (.partData 1)
            (.data .part ((dataDelim B).take k)) hstep rfl, hrun]
          refine ⟨k', Event.data .part ((dataDelim B).take k) :: evs,
            by simp, hk', ?_, ?_⟩
          · have hc : concatK .part
                (Event.data .part ((dataDelim B).take k) :: evs) =
                (dataDelim B).take k ++ concatK .part evs := by
              simp [concatK]
            rw [hc, List.append_assoc, hcat, h1eq]
          · intro e he
            rcases List.mem_cons.mp he with he | he
            · exact ⟨_, he⟩
            · exact hP e he
        · have hstep : step B (.partData k) b =
              .ok (.partData 0,
                some (.data .part ((dataDelim B).take k ++ [b]))) := by
            simp only [step]
            rw [if_neg hcond, if_neg hk0, if_neg hb13]
          have hno1 : ¬ (dataDelim B) <:+: ((dataDelim B).take 0 ++ t) := by
            simp only [List.take_zero, List.nil_append]
            exact no_infix_of_suffix hno ⟨(dataDelim B).take k ++ [b], by simp⟩
          have h0lt : 0 < (dataDelim B).length := by rw [dataDelim_len]; omega
          obtain ⟨k', evs, hrun, hk', hcat, hP⟩ := ih 0 h0lt hno1
          rw [runLoop_cons_some B noPf (.partData k) b t (.partData 0)
            (.data .part ((dataDelim B).take k ++ [b])) hstep rfl, hrun]
          refine ⟨k', Event.data .part ((dataDelim B).take k ++ [b]) :: evs,
            by simp, hk', ?_, ?_⟩
          · have hc : concatK .part
                (Event.data .part ((dataDelim B).take k ++ [b]) :: evs) =
                ((dataDelim B).take k ++ [b]) ++ concatK .part evs := by
              simp [concatK]
            rw [hc, List.append_assoc]
            simp only [List.take_zero, List.nil_append] at hcat
            rw [hcat]
            simp
          · intro e he
            rcases List.mem_cons.mp he with he | he
            · exact ⟨_, he⟩
            · exact hP e he

lemma matchTail (B : List Nat) : ∀ (n j : Nat),
    j + n = (dataDelim B).length → 1 ≤ n →
    runLoop B noPf (.partData j) ((dataDelim B).drop j) =
      ⟨.boundaryMatched, .OK, n, [.partDataEnd]⟩ := by
  intro n
  induction n with
  | zero =>
    intro j hj h1
    omega
  | succ m ih =>
    intro j hj _
    have hjlt : j < (dataDelim B).length := by omega
    have hdrop : (dataDelim B).drop j =
        (dataDelim B).getD j 0 :: (dataDelim B).drop (j + 1) := by
      rw [List.drop_eq_getElem_cons hjlt,
        List.getD_eq_getElem (dataDelim B) 0 hjlt]
    by_cases hfull : j + 1 = (dataDelim B).length
    · have hstep : step B (.partData j) ((dataDelim B).getD j 0) =
          .ok (.boundaryMatched, some .partDataEnd) := by
        simp only [step]
        rw [if_pos ⟨hjlt, trivial⟩, if_pos hfull]
      have hdrop1 : (dataDelim B).drop (j + 1) = [] :=
        List.drop_eq_nil_of_le (by omega)
      have hm : m = 0 := by omega
      subst hm
      rw [hdrop, hdrop1,
        runLoop_cons_some B noPf (.partData j) _ _ .boundaryMatched
          .partDataEnd hstep rfl, runLoop_nil]
    · have hstep : step B (.partData j) ((dataDelim B).getD j 0) =
          .ok (.partData (j + 1), none) := by
        simp only [step]
        rw [if_pos ⟨hjlt, trivial⟩, if_neg hfull]
      have hrec := ih (j + 1) (by omega) (by omega)
      rw [hdrop, runLoop_cons_none B noPf (.partData j) _ _
        (.partData (j + 1)) hstep, hrec]

lemma delimScanFromK (B : List Nat) (hB : ¬ 13 ∈ B) (k' : Nat)
    (hk' : k' < (dataDelim B).length) :
    runLoop B noPf (.partData k') (dataDelim B) =
      ⟨.boundaryMatched, .OK, (dataDelim B).length,
        if k' = 0 then [.partDataEnd]
        else [.data .part ((dataDelim B).take k'), .partDataEnd]⟩ := by
  by_cases hk0 : k' = 0
  · subst hk0
    rw [if_pos rfl]
    have h := matchTail B ((dataDelim B).length) 0 (by omega)
      (by rw [dataDelim_len]; omega)
    simpa using h
  · rw [if_neg hk0]
    have hD : dataDelim B = 13 :: (dataDelim B).drop 1 := rfl
    have hne : (dataDelim B).getD k' 0 ≠ 13 :=
      dataDelim_tail_ne13 B hB k' (by omega)
    have hcond : ¬(k' < (dataDelim B).length ∧
        (13 : Nat) = (dataDelim B).getD k' 0) := by
      rintro ⟨-, h⟩
      exact hne h.symm
    have hstep : step B (.partData k') 13 =
        .ok (.partData 1, some (.data .part ((dataDelim B).take k'))) := by
      simp only [step]
      rw [if_neg hcond, if_neg hk0, if_pos trivial]
    have htail := matchTail B ((dataDelim B).length - 1) 1
      (by rw [dataDelim_len]; omega) (by rw [dataDelim_len]; omega)
    conv_lhs => rw [hD]
    rw [runLoop_cons_some B noPf (.partData k') 13 _ (.partData 1)
      (.data .part ((dataDelim B).take k')) hstep rfl, htail]
    simp [RunRes.mk.injEq, dataDelim_len]

lemma filter_lifeBE_nil_of_data {l : List Event}
    (h : ∀ e ∈ l, ∃ k xs, e = Event.data k xs) : l.filter lifeBE = [] := by
  induction l with
  | nil => rfl
  | cons e t ih =>
    obtain ⟨k, xs, rfl⟩ := h e (by simp)
    have ht := ih (fun x hx => h x (by simp [hx]))
    simp [List.filter_cons, lifeBE_data, ht]

lemma concatK_nil_of_ne (k : DKind) : ∀ l : List Event,
    (∀ e ∈ l, ∀ xs, e ≠ Event.data k xs) → concatK k l = [] := by
  intro l
  induction l with
  | nil =>
    intro _
    rfl
  | cons e t ih =>
    intro h
    have ht := ih (fun x hx => h x (by simp [hx]))
    cases e with
    | data k' xs =>
      have hne : ¬ k' = k := by
        intro hk
        exact h (Event.data k' xs) (by simp) xs (by rw [hk])
      simp [concatK, hne, ht]
    | partBegin => simpa [concatK] using ht
    | headersComplete => simpa [concatK] using ht
    | partDataEnd => simpa [concatK] using ht
    | bodyEnd => simpa [concatK] using ht

lemma partScan (B : List Nat) (hB : ¬ 13 ∈ B) (pt : PartSpec)
    (hWF : WFpart B pt) :
    ∃ evs, runLoop B noPf .headerFieldStart (renderPart pt ++ dataDelim B) =
      ⟨.boundaryMatched, .OK, (renderPart pt ++ dataDelim B).length, evs⟩ ∧
      evs.filter lifeBE = [.partDataEnd] ∧
      concatK .part evs = pt.content := by
  obtain ⟨hWFh, hnoD⟩ := hWF
  obtain ⟨evs1, hrun1, hP1⟩ := headersScan B pt.headers hWFh
  have hcrlf : runLoop B noPf .headerFieldStart [13, 10] =
      ⟨.partData 0, .OK, 2, [.headersComplete]⟩ := rfl
  have h0lt : 0 < (dataDelim B).length := by rw [dataDelim_len]; omega
  have hno0 : ¬ (dataDelim B) <:+: ((dataDelim B).take 0 ++ pt.content) := by
    simpa using hnoD
  obtain ⟨k', evs2, hrun2, hk', hcat2, hP2⟩ := dataScan B pt.content 0 h0lt hno0
  have hdelim := delimScanFromK B hB k' hk'
  have hcd : runLoop B noPf (.partData 0) (pt.content ++ dataDelim B) =
      ⟨.boundaryMatched, .OK, pt.content.length + (dataDelim B).length,
        evs2 ++ (if k' = 0 then [Event.partDataEnd]
          else [Event.data .part ((dataDelim B).take k'),
            Event.partDataEnd])⟩ := by
    rw [runLoop_append_ok B pt.content (dataDelim B) (.partData 0)
      (.partData k') pt.content.length evs2 hrun2, hdelim]
  have hcrlfcd : runLoop B noPf .headerFieldStart
      ([13, 10] ++ (pt.content ++ dataDelim B)) =
      ⟨.boundaryMatched, .OK, 2 + (pt.content.length + (dataDelim B).length),
        [Event.headersComplete] ++ (evs2 ++ (if k' = 0 then [Event.partDataEnd]
          else [Event.data .part ((dataDelim B).take k'),
            Event.partDataEnd]))⟩ := by
    rw [runLoop_append_ok B [13, 10] (pt.content ++ dataDelim B)
      .headerFieldStart (.partData 0) 2 [Event.headersComplete] hcrlf, hcd]
  have hall : runLoop B noPf .headerFieldStart
      (renderHeaders pt.headers ++ ([13, 10] ++ (pt.content ++ dataDelim B))) =
      ⟨.boundaryMatched, .OK,
        (renderHeaders pt.headers).length +
          (2 + (pt.content.length + (dataDelim B).length)),
        evs1 ++ ([Event.headersComplete] ++
          (evs2 ++ (if k' = 0 then [Event.partDataEnd]
            else [Event.data .part ((dataDelim B).take k'),
              Event.partDataEnd])))⟩ := by
    rw [runLoop_append_ok B (renderHeaders pt.headers)
      ([13, 10] ++ (pt.content ++ dataDelim B)) .headerFieldStart
      .headerFieldStart (renderHeaders pt.headers).length evs1 hrun1, hcrlfcd]
  have hshape : renderPart pt ++ dataDelim B =
      renderHeaders pt.headers ++ ([13, 10] ++ (pt.content ++ dataDelim B)) := by
    simp [renderPart, List.append_assoc]
  refine ⟨evs1 ++ ([Event.headersComplete] ++
      (evs2 ++ (if k' = 0 then [Event.partDataEnd]
        else [Event.data .part ((dataDelim B).take k'),
          Event.partDataEnd]))), ?_, ?_, ?_⟩
  · rw [hshape, hall]
    simp [RunRes.mk.injEq, List.length_append]
    try omega
  · have h1 : evs1.filter lifeBE = [] := by
      apply filter_lifeBE_nil_of_data
      intro e he
      rcases hP1 e he with ⟨xs, hx⟩ | ⟨xs, hx⟩
      · exact ⟨.field, xs, hx⟩
      · exact ⟨.value, xs, hx⟩
    have h2 : evs2.filter lifeBE = [] := by
      apply filter_lifeBE_nil_of_data
      intro e he
      obtain ⟨xs, hx⟩ := hP2 e he
      exact ⟨.part, xs, hx⟩
    have hT : lifeBE Event.partDataEnd = true := rfl
    have hH : lifeBE Event.headersComplete = false := rfl
    have h4 : (if k' = 0 then [Event.partDataEnd]
        else [Event.data .part ((dataDelim B).take k'),
          Event.partDataEnd]).filter lifeBE = [Event.partDataEnd] := by
      by_cases h : k' = 0 <;>
        simp [h, List.filter_cons, lifeBE_data, hT]
    simp [List.filter_append, h1, h2, h4, List.filter_cons, hH]
  · have h1 : concatK DKind.part evs1 = [] := by
      apply concatK_nil_of_ne
      intro e he xs hx
      rcases hP1 e he with ⟨ys, rfl⟩ | ⟨ys, rfl⟩ <;> simp at hx
    have hc2 : concatK DKind.part evs2 ++ (dataDelim B).take k' =
        pt.content := by
      simpa using hcat2
    have hc3 : concatK DKind.part (evs2 ++ (if k' = 0 then [Event.partDataEnd]
        else [Event.data .part ((dataDelim B).take k'),
          Event.partDataEnd])) = pt.content := by
      rw [concatK_append]
      by_cases h : k' = 0
      · subst h
        simp only [List.take_zero, List.append_nil] at hc2
        simp [concatK, hc2]
      · rw [if_neg h]
        have hd : concatK DKind.part
            [Event.data .part ((dataDelim B).take k'), Event.partDataEnd] =
            (dataDelim B).take k' := by simp [concatK]
        rw [hd]
        exact hc2
    rw [concatK_append, concatK_append, h1, hc3]
    rfl

lemma partsScan (B : List Nat) (hB : ¬ 13 ∈ B) : ∀ (parts : List PartSpec),
    parts ≠ [] → (∀ pt ∈ parts, WFpart B pt) →
    ∃ evs, runLoop B noPf .headerFieldStart (bodyTail B parts) =
      ⟨.ended, .OK, (bodyTail B parts).length, evs⟩ ∧
      evs.filter lifeBE = bePattern parts ∧
      concatK .part evs = (parts.map PartSpec.content).flatten := by
  intro parts
  induction parts with
  | nil =>
    intro hne _
    exact absurd rfl hne
  | cons pt rest ih =>
    intro _ hWF
    obtain ⟨evs1, hrun1, hf1, hc1⟩ := partScan B hB pt (hWF pt (by simp))
    have hBE : lifeBE Event.bodyEnd = true := rfl
    have hPB : lifeBE Event.partBegin = true := rfl
    cases rest with
    | nil =>
      have htail : runLoop B noPf .boundaryMatched [45, 45, 13, 10] =
          ⟨.ended, .OK, 4, [.bodyEnd]⟩ := rfl
      have hall : runLoop B noPf .headerFieldStart
          ((renderPart pt ++ dataDelim B) ++ [45, 45, 13, 10]) =
          ⟨.ended, .OK, (renderPart pt ++ dataDelim B).length + 4,
            evs1 ++ [Event.bodyEnd]⟩ := by
        rw [runLoop_append_ok B (renderPart pt ++ dataDelim B) [45, 45, 13, 10]
          .headerFieldStart .boundaryMatched
          (renderPart pt ++ dataDelim B).length evs1 hrun1, htail]
      have hb : bodyTail B [pt] =
          (renderPart pt ++ dataDelim B) ++ [45, 45, 13, 10] := rfl
      refine ⟨evs1 ++ [Event.bodyEnd], ?_, ?_, ?_⟩
      · rw [hb, hall]
        simp [RunRes.mk.injEq, List.length_append]
        try omega
      · rw [List.filter_append, hf1]
        simp [List.filter_cons, hBE, bePattern]
      · rw [concatK_append, hc1]
        simp [concatK]
    | cons r rs =>
      have hsep : runLoop B noPf .boundaryMatched [13, 10] =
          ⟨.headerFieldStart, .OK, 2, [.partBegin]⟩ := rfl
      obtain ⟨evs2, hrun2, hf2, hcc2⟩ :=
        ih (by simp) (fun x hx => hWF x (by simp [hx]))
      have h12 : runLoop B noPf .headerFieldStart
          ((renderPart pt ++ dataDelim B) ++ [13, 10]) =
          ⟨.headerFieldStart, .OK, (renderPart pt ++ dataDelim B).length + 2,
            evs1 ++ [Event.partBegin]⟩ := by
        rw [runLoop_append_ok B (renderPart pt ++ dataDelim B) [13, 10]
          .headerFieldStart .boundaryMatched
          (renderPart pt ++ dataDelim B).length evs1 hrun1, hsep]
      have hall : runLoop B noPf .headerFieldStart
          (((renderPart pt ++ dataDelim B) ++ [13, 10]) ++
            bodyTail B (r :: rs)) =
          ⟨.ended, .OK, ((renderPart pt ++ dataDelim B).length + 2) +
            (bodyTail B (r :: rs)).length,
            (evs1 ++ [Event.partBegin]) ++ evs2⟩ := by
        rw [runLoop_append_ok B ((renderPart pt ++ dataDelim B) ++ [13, 10])
          (bodyTail B (r :: rs)) .headerFieldStart .headerFieldStart
          ((renderPart pt ++ dataDelim B).length + 2)
          (evs1 ++ [Event.partBegin]) h12, hrun2]
      have hb : bodyTail B (pt :: r :: rs) =
          ((renderPart pt ++ dataDelim B) ++ [13, 10]) ++
            bodyTail B (r :: rs) := rfl
      refine ⟨(evs1 ++ [Event.partBegin]) ++ evs2, ?_, ?_, ?_⟩
      · rw [hb, hall]
        simp [RunRes.mk.injEq, List.length_append]
        try omega
      · rw [List.filter_append, List.filter_append, hf1, hf2]
        simp [List.filter_cons, hPB, bePattern]
      · rw [concatK_append, concatK_append, hc1, hcc2]
        simp [concatK]

lemma openScan (B : List Nat) : ∀ (n j : Nat),
    j + n = (openDelim B).length → 1 ≤ n →
    runLoop B noPf (.preamble j) ((openDelim B).drop j) =
      ⟨.initialDone, .OK, n, []⟩ := by
  intro n
  induction n with
  | zero =>
    intro j hj h1
    omega
  | succ m ih =>
    intro j hj _
    have hjlt : j < (openDelim B).length := by omega
    have hdrop : (openDelim B).drop j =
        (openDelim B).getD j 0 :: (openDelim B).drop (j + 1) := by
      rw [List.drop_eq_getElem_cons hjlt,
        List.getD_eq_getElem (openDelim B) 0 hjlt]
    by_cases hfull : j + 1 = (openDelim B).length
    · have hstep : step B (.preamble j) ((openDelim B).getD j 0) =
          .ok (.initialDone, none) := by
        simp only [step]
        rw [if_pos ⟨hjlt, trivial⟩, if_pos hfull]
      have hdrop1 : (openDelim B).drop (j + 1) = [] :=
        List.drop_eq_nil_of_le (by omega)
      have hm : m = 0 := by omega
      subst hm
      rw [hdrop, hdrop1,
        runLoop_cons_none B noPf (.preamble j) _ _ .initialDone hstep,
        runLoop_nil]
    · have hstep : step B (.preamble j) ((openDelim B).getD j 0) =
          .ok (.preamble (j + 1), none) := by
        simp only [step]
        rw [if_pos ⟨hjlt, trivial⟩, if_neg hfull]
      have hrec := ih (j + 1) (by omega) (by omega)
      rw [hdrop, runLoop_cons_none B noPf (.preamble j) _ _
        (.preamble (j + 1)) hstep, hrec]

lemma bodyScan (B : List Nat) (hB : ¬ 13 ∈ B) (parts : List PartSpec)
    (hne : parts ≠ []) (hWF : ∀ pt ∈ parts, WFpart B pt) :
    ∃ evs, runLoop B noPf (.preamble 0) (renderBody B parts) =
      ⟨.ended, .OK, (renderBody B parts).length, evs⟩ ∧
      evs.filter lifeBE = .partBegin :: bePattern parts ∧
      concatK .part evs = (parts.map PartSpec.content).flatten := by
  have hopen : runLoop B noPf (.preamble 0) (openDelim B) =
      ⟨.initialDone, .OK, (openDelim B).length, []⟩ := by
    have h := openScan B (openDelim B).length 0 (by omega)
      (by simp only [openDelim, List.length_cons]; omega)
    simpa using h
  have hline : runLoop B noPf .initialDone [13, 10] =
      ⟨.headerFieldStart, .OK, 2, [.partBegin]⟩ := rfl
  obtain ⟨evs, hrun, hf, hcc⟩ := partsScan B hB parts hne hWF
  have h01 : runLoop B noPf (.preamble 0) (openDelim B ++ [13, 10]) =
      ⟨.headerFieldStart, .OK, (openDelim B).length + 2,
        [Event.partBegin]⟩ := by
    rw [runLoop_append_ok B (openDelim B) [13, 10] (.preamble 0) .initialDone
      (openDelim B).length [] hopen, hline]
    rfl
  have hall : runLoop B noPf (.preamble 0)
      ((openDelim B ++ [13, 10]) ++ bodyTail B parts) =
      ⟨.ended, .OK, ((openDelim B).length + 2) + (bodyTail B parts).length,
        [Event.partBegin] ++ evs⟩ := by
    rw [runLoop_append_ok B (openDelim B ++ [13, 10]) (bodyTail B parts)
      (.preamble 0) .headerFieldStart ((openDelim B).length + 2)
      [Event.partBegin] h01, hrun]
  have hb : renderBody B parts =
      (openDelim B ++ [13, 10]) ++ bodyTail B parts := rfl
  have hPB : lifeBE Event.partBegin = true := rfl
  refine ⟨[Event.partBegin] ++ evs, ?_, ?_, ?_⟩
  · rw [hb, hall]
    simp [RunRes.mk.injEq, List.length_append]
    try omega
  · rw [List.filter_append, hf]
    simp [List.filter_cons, hPB]
  · rw [concatK_append, hcc]
    simp [concatK]

lemma countE_bePattern_partDataEnd : ∀ parts : List PartSpec,
    countE .partDataEnd (bePattern parts) = parts.length
  | [] => rfl
  | [_] => rfl
  | _ :: r :: rs => by
    have ih := countE_bePattern_partDataEnd (r :: rs)
    simp [bePattern, countE, ih]
    try omega

lemma countE_bePattern_partBegin : ∀ parts : List PartSpec,
    countE .partBegin (bePattern parts) = parts.length - 1
  | [] => rfl
  | [_] => rfl
  | _ :: r :: rs => by
    have ih := countE_bePattern_partBegin (r :: rs)
    simp [bePattern, countE, ih]
    try omega

lemma countE_bePattern_bodyEnd : ∀ parts : List PartSpec, parts ≠ [] →
    countE .bodyEnd (bePattern parts) = 1
  | [], h => absurd rfl h
  | [_], _ => rfl
  | _ :: r :: rs, _ => by
    have ih := countE_bePattern_bodyEnd (r :: rs) (by simp)
    simp [bePattern, countE, ih]

/-- Parser over boundary `"B"` with the output buffer disabled, as in
`test_rfc_single_part` (`src/tests/test_rfc.c`). -/
def c4parser : Option multipart_parser_t := multipart_parser_init [66] ⟨0⟩

/-- The body `"--B\r\nContent-Type: text/plain\r\n\r\nHello World\r\n--B--\r\n"`
of `test_rfc_single_part` (`src/tests/test_rfc.c`), as bytes. -/
def c4body : List Nat :=
  [45, 45, 66, 13, 10,
   67, 111, 110, 116, 101, 110, 116, 45, 84, 121, 112, 101, 58, 32,
   116, 101, 120, 116, 47, 112, 108, 97, 105, 110, 13, 10, 13, 10,
   72, 101, 108, 108, 111, 32, 87, 111, 114, 108, 100,
   13, 10, 45, 45, 66, 45, 45, 13, 10]

/-- One whole-body `execute` call on a freshly initialized parser for a
rendered canonical multipart body. -/
def c4exec (B : List Nat) (sz : Nat) (parts : List PartSpec) : ExecResult :=
  multipart_parser_execute (multipart_parser_init B ⟨sz⟩)
    (some (renderBody B parts)) (renderBody B parts).length noPf

/-- Two well-formed parts used to instantiate the general multi-part
lifecycle statement at a concrete input. -/
def c4w2 : List PartSpec :=
  [⟨[([67], [97])], [104, 104]⟩, ⟨[([88], [98])], [105]⟩]

deriving instance DecidableEq for PartSpec

instance (h : List Nat × List Nat) : Decidable (WFheader h) := by
  unfold WFheader
  infer_instance

instance (B : List Nat) (pt : PartSpec) : Decidable (WFpart B pt) := by
  unfold WFpart
  infer_instance

/-- C4: lifecycle ordering and multiplicity.  For the body
`"--B\r\nContent-Type: text/plain\r\n\r\nHello World\r\n--B--\r\n"` with
boundary `"B"`, `execute` fires exactly `part_data_begin`,
`header_field("Content-Type")`, `header_value("text/plain")`,
`headers_complete`, `part_data("Hello World")`, `part_data_end`,
`body_end`, each exactly once, consuming the whole body with no error; and
for every boundary (CR-free, within the supported length), every buffer
size and every non-empty list of well-formed parts, executing the rendered
body fires the lifecycle callbacks in exactly the per-part order
`part_data_begin … part_data_end` with `body_end` once after the final
`part_data_end`: the lifecycle subsequence is `partBegin :: bePattern
parts`, so `part_data_begin` and `part_data_end` each fire exactly `N`
times and `body_end` exactly once, the whole body is consumed and the
error is `OK`. -/
theorem C4_lifecycle_ordering :
    ((multipart_parser_execute c4parser (some c4body) c4body.length
        noPf).events =
      [Event.partBegin,
       Event.data .field [67, 111, 110, 116, 101, 110, 116, 45, 84, 121,
         112, 101],
       Event.data .value [116, 101, 120, 116, 47, 112, 108, 97, 105, 110],
       Event.headersComplete,
       Event.data .part [72, 101, 108, 108, 111, 32, 87, 111, 114, 108,
         100],
       Event.partDataEnd, Event.bodyEnd] ∧
     (multipart_parser_execute c4parser (some c4body) c4body.length
        noPf).consumed = c4body.length ∧
     multipart_parser_get_error (multipart_parser_execute c4parser
        (some c4body) c4body.length noPf).p = .OK) ∧
    ∀ (B : List Nat) (sz : Nat) (parts : List PartSpec),
      13 ∉ B → B.length ≤ 255 → parts ≠ [] →
      (∀ pt ∈ parts, WFpart B pt) →
      (c4exec B sz parts).events.filter lifeBE =
        Event.partBegin :: bePattern parts ∧
      countE .partBegin (c4exec B sz parts).events = parts.length ∧
      countE .partDataEnd (c4exec B sz parts).events = parts.length ∧
      countE .bodyEnd (c4exec B sz parts).events = 1 ∧
      (c4exec B sz parts).consumed = (renderBody B parts).length ∧
      multipart_parser_get_error (c4exec B sz parts).p = .OK := by
  refine ⟨by decide, ?_⟩
  intro B sz parts hB hlen hne hWF
  have hgt : ¬ B.length > 255 := by omega
  have hinit : multipart_parser_init B ⟨sz⟩ = some
      { boundary := B
        cap := B.length
        st := .preamble 0
        error := .OK
        user_data := none
        buffer_size := sz } := by
    simp [multipart_parser_init, hgt]
  obtain ⟨evs, hrun, hf, -⟩ := bodyScan B hB parts hne hWF
  have hex : c4exec B sz parts =
      ⟨some { boundary := B
              cap := B.length
              st := .ended
              error := .OK
              user_data := none
              buffer_size := sz },
        (renderBody B parts).length, procEvents sz evs⟩ := by
    unfold c4exec
    rw [hinit]
    simp only [multipart_parser_execute]
    rw [if_neg (by simp)]
    rw [List.take_length]
    rw [hrun]
  have hflt : (c4exec B sz parts).events.filter lifeBE =
      Event.partBegin :: bePattern parts := by
    rw [hex]
    show (procEvents sz evs).filter lifeBE = _
    rw [filter_lifeBE_procEvents, hf]
  have hPBt : lifeBE Event.partBegin = true := rfl
  have hPDt : lifeBE Event.partDataEnd = true := rfl
  have hBEt : lifeBE Event.bodyEnd = true := rfl
  have hlp : 0 < parts.length := List.length_pos.mpr hne
  have hcntB : countE .partBegin (c4exec B sz parts).events =
      parts.length := by
    rw [← countE_filter_lifeBE _ hPBt, hflt]
    simp [countE, countE_bePattern_partBegin]
    try omega
  have hcntD : countE .partDataEnd (c4exec B sz parts).events =
      parts.length := by
    rw [← countE_filter_lifeBE _ hPDt, hflt]
    simp [countE, countE_bePattern_partDataEnd]
    try omega
  have hcntE : countE .bodyEnd (c4exec B sz parts).events = 1 := by
    rw [← countE_filter_lifeBE _ hBEt, hflt]
    simp [countE, countE_bePattern_bodyEnd parts hne]
    try omega
  have hcons : (c4exec B sz parts).consumed =
      (renderBody B parts).length := by
    rw [hex]
  have herr : multipart_parser_get_error (c4exec B sz parts).p = .OK := by
    rw [hex]
    rfl
  exact ⟨hflt, hcntB, hcntD, hcntE, hcons, herr⟩

/-- Witness for `C4_lifecycle_ordering`: the general multi-part statement
instantiated at boundary `"B"`, buffer size 3 and the concrete two-part
list `c4w2`, with every hypothesis discharged at these values. -/
theorem C4_lifecycle_ordering_witness :
    (13 ∉ ([66] : List Nat)) ∧ ([66] : List Nat).length ≤ 255 ∧
    c4w2 ≠ [] ∧ (∀ pt ∈ c4w2, WFpart [66] pt) ∧
    countE .partBegin (c4exec [66] 3 c4w2).events = 2 ∧
    countE .partDataEnd (c4exec [66] 3 c4w2).events = 2 ∧
    countE .bodyEnd (c4exec [66] 3 c4w2).events = 1 := by
  obtain ⟨-, h⟩ := C4_lifecycle_ordering
  obtain ⟨h1, h2, h3, h4, h5, h6⟩ := h [66] 3 c4w2 (by decide) (by decide)
    (by decide) (by decide)
  exact ⟨by decide, by decide, by decide, by decide,
    h2.trans (by rfl), h3.trans (by rfl), h4⟩


/-- The parser record produced by a successful `multipart_parser_init` for
boundary `B` and buffer size `sz`. -/
def initParser (B : List Nat) (sz : Nat) : multipart_parser_t :=
  { boundary := B
    cap := B.length
    st := .preamble 0
    error := .OK
    user_data := none
    buffer_size := sz }

lemma init_ok (B : List Nat) (sz : Nat) (h : B.length ≤ 255) :
    multipart_parser_init B ⟨sz⟩ = some (initParser B sz) := by
  have hgt : ¬ B.length > 255 := by omega
  simp [multipart_parser_init, initParser, hgt]

/-- C2: CR binary-safety.  For every CR-free boundary within the supported
length, every buffer size, every non-empty list of well-formed parts — in
particular every part whose data contains a CR byte (0x0D) not immediately
followed by LF — and every partition of the rendered body into chunks, the
concatenated `on_part_data` payloads equal exactly the concatenation of
the parts' contents: every data byte, and so every isolated CR, is
delivered verbatim, never dropped, at every chunk granularity.  For the
concrete binary part of `test_binary_with_cr` the delivered part data is
exactly `0x01 0x02 0x0D 0x03 0x04` under every chunking.  And the CR is
never misrouted: for every parser and every body fed one byte per
`execute` call, no CR byte is ever delivered inside an `on_header_value`
payload. -/
theorem C2_cr_binary_safety :
    (∀ (B : List Nat) (sz : Nat) (parts : List PartSpec),
      13 ∉ B → B.length ≤ 255 → parts ≠ [] →
      (∀ pt ∈ parts, WFpart B pt) →
      ∀ chunks : List (List Nat), chunks.flatten = renderBody B parts →
      concatK .part (execChunks (multipart_parser_init B ⟨sz⟩) chunks).2 =
        (parts.map PartSpec.content).flatten) ∧
    (∀ chunks : List (List Nat), chunks.flatten = crBody →
      concatK .part (execChunks (some crParser) chunks).2 =
        [1, 2, 13, 3, 4]) ∧
    (∀ (p : multipart_parser_t) (bs : List Nat) (xs : List Nat),
      Event.data .value xs ∈
        (execChunks (some p) (bs.map (fun b => [b]))).2 → ¬ 13 ∈ xs) := by
  refine ⟨?_, ?_, ?_⟩
  · intro B sz parts hB hlen hne hWF chunks hflat
    have hcne : chunks ≠ [] := by
      intro h0
      rw [h0] at hflat
      have hne2 : renderBody B parts ≠ [] := by
        simp [renderBody, openDelim]
      exact hne2 hflat.symm
    obtain ⟨evs, hrun, hf, hcc⟩ := bodyScan B hB parts hne hWF
    have hex : multipart_parser_execute (some (initParser B sz))
        (some (renderBody B parts)) (renderBody B parts).length noPf =
        ⟨some { boundary := B
                cap := B.length
                st := .ended
                error := .OK
                user_data := none
                buffer_size := sz },
          (renderBody B parts).length, procEvents sz evs⟩ := by
      simp only [initParser, multipart_parser_execute]
      rw [if_neg (by simp)]
      rw [List.take_length]
      rw [hrun]
    have hchain := (execChunks_spec chunks (initParser B sz) hcne).2
    rw [init_ok B sz hlen]
    calc concatK DKind.part (execChunks (some (initParser B sz)) chunks).2
        = concatK DKind.part
            (coalesce (execChunks (some (initParser B sz)) chunks).2) :=
          (concatK_coalesce _ _).symm
      _ = concatK DKind.part (coalesce (multipart_parser_execute
            (some (initParser B sz)) (some chunks.flatten)
            chunks.flatten.length noPf).events) := by
          rw [hchain]
      _ = concatK DKind.part (multipart_parser_execute
            (some (initParser B sz)) (some chunks.flatten)
            chunks.flatten.length noPf).events := concatK_coalesce _ _
      _ = concatK DKind.part (procEvents sz evs) := by
          rw [hflat, hex]
      _ = concatK DKind.part evs := concatK_procEvents _ _ _
      _ = (parts.map PartSpec.content).flatten := hcc
  · intro chunks hj
    have hne : chunks ≠ [] := by
      intro h0
      rw [h0] at hj
      exact absurd hj.symm (by decide)
    have h := execChunks_spec chunks crParser hne
    have h2 : concatK .part (execChunks (some crParser) chunks).2 =
        concatK .part (multipart_parser_execute (some crParser)
          (some chunks.flatten) chunks.flatten.length noPf).events := by
      calc concatK .part (execChunks (some crParser) chunks).2
          = concatK .part (coalesce (execChunks (some crParser) chunks).2) :=
            (concatK_coalesce _ _).symm
        _ = concatK .part (coalesce (multipart_parser_execute (some crParser)
              (some chunks.flatten) chunks.flatten.length noPf).events) := by
            rw [h.2]
        _ = concatK .part (multipart_parser_execute (some crParser)
              (some chunks.flatten) chunks.flatten.length noPf).events :=
            concatK_coalesce _ _
    rw [h2, hj]
    decide
  · intro p bs xs hmem hcr
    exact execChunks_value_cr_free (bs.map (fun b => [b])) (some p)
      (mem_concatK .value xs _ hmem 13 hcr)

/-- C2 witness: the general part-data conjunct instantiated at boundary
`"B"`, buffer size 2 and the concrete two-part list `c4w2` fed one byte
per `execute` call, with every hypothesis discharged at these values;
plus the one-byte-per-call `test_binary_with_cr` feeding and a concrete
CR-free header-value payload. -/
theorem C2_cr_binary_safety_witness :
    (13 ∉ ([66] : List Nat)) ∧ ([66] : List Nat).length ≤ 255 ∧
    c4w2 ≠ [] ∧ (∀ pt ∈ c4w2, WFpart [66] pt) ∧
    concatK .part (execChunks (multipart_parser_init [66] ⟨2⟩)
        ((renderBody [66] c4w2).map (fun b => [b]))).2 =
      (c4w2.map PartSpec.content).flatten ∧
    concatK .part (execChunks (some crParser)
        (crBody.map (fun b => [b]))).2 = [1, 2, 13, 3, 4] ∧
    ¬ 13 ∈ [98] :=
  ⟨by decide, by decide, by decide, by decide,
    C2_cr_binary_safety.1 [66] 2 c4w2 (by decide) (by decide) (by decide)
      (by decide) ((renderBody [66] c4w2).map (fun b => [b])) (by decide),
    C2_cr_binary_safety.2.1 (crBody.map (fun b => [b])) (by decide),
    C2_cr_binary_safety.2.2 pTest body9 [98] (by decide)⟩
